import Mathlib

/-!
# Event delivery and transient-context keys

A shallow embedding of `src/EventSender.js` and `src/TransientContextProcessor.js`.

Promises are modelled by their completion (`Completion`): a call either resolves with a
value, rejects, or throws synchronously.  Side effects (requests issued, fallback pings,
storage reads and writes, identifiers generated) are recorded in an explicit state that each
operation takes and returns.  Collaborators that live outside the two source files
(`JSON.stringify`, `utils.base64URLEncode`, `utils.getLDHeaders`,
`errors.isHttpErrorRecoverable`, `Date.parse`, the HTTP transport, `uuidv1`) are parameters.
-/

set_option autoImplicit false

/-! ## Promises -/

/-- How a call that returns a promise completes: the promise resolves with a value, the promise
rejects with an error, or the call throws synchronously before any promise is returned. -/
inductive Completion (ε α : Type) where
  | resolved (value : α)
  | rejected (error : ε)
  | threw
  deriving DecidableEq, Repr

namespace Completion

variable {ε α : Type}

/-- The promise was resolved. -/
def isResolved : Completion ε α → Bool
  | resolved _ => true
  | _ => false

/-- The promise was rejected. -/
def isRejected : Completion ε α → Bool
  | rejected _ => true
  | _ => false

end Completion

/-! ## EventSender.js -/

namespace EventSender

/-- `const MAX_URL_LENGTH = 2000;` -/
def MAX_URL_LENGTH : Int := 2000

/-- One call of `platform.httpRequest(method, url, headers, body)`. -/
structure Request where
  method : String
  url : String
  headers : List (String × String)
  body : String
  deriving DecidableEq, Repr

/-- What the sender reads from a response object: `result.status` and `result.header('date')`
(`none` when the header is absent). -/
structure Response where
  status : Int
  date : Option String
  deriving DecidableEq, Repr

/-- How the promise of one `httpRequest` call settles: it resolves with a falsy value (a
fire-and-forget send), resolves with a response object, or rejects (transport-level failure). -/
inductive Outcome where
  | noResponse
  | response (result : Response)
  | exception
  deriving DecidableEq, Repr

/-- The object built by `getResponseInfo`: `status`, and `serverTime` when it was attached. -/
structure ResponseInfo where
  status : Int
  serverTime : Option Int
  deriving DecidableEq, Repr

/-- The collaborators of the sender, as seen from `EventSender.js`.

* `httpRequest` is `none` when `platform.httpRequest` is absent; otherwise it gives the outcome
  of a request from the requests issued before it and the request itself;
* `httpFallbackPing` tells whether `platform.httpFallbackPing` is set;
* `dateParse` is `Date.parse`, with `none` for `NaN`. -/
structure Platform (Event : Type) where
  httpRequest : Option (List Request → Request → Outcome)
  httpAllowsPost : Bool
  httpFallbackPing : Bool
  stringify : List Event → String
  base64URLEncode : String → String
  getLDHeaders : List (String × String)
  isHttpErrorRecoverable : Int → Bool
  dateParse : String → Option Int

/-- The effects of the sender that are visible to the platform, oldest first. -/
structure World where
  requests : List Request
  pings : List String
  postQueries : Nat
  chunkCalls : Nat
  deriving DecidableEq, Repr

/-- A world in which nothing has happened yet. -/
def World.init : World := ⟨[], [], 0, 0⟩

/-- A promise of the sender; its rejections carry no value (`Promise.reject()`). -/
abbrev Promise (α : Type) := Completion Unit α

section Sender

variable {Event : Type} (platform : Platform Event) (environmentId : String)

/-- `const imageUrlPath = '/a/' + environmentId + '.gif';` -/
def imageUrlPath : String := "/a/" ++ environmentId ++ ".gif"

/-- `const headers = utils.extend({...}, utils.getLDHeaders(platform, options));` with the
object written as its list of entries, the platform-supplied ones last. -/
def headers : List (String × String) :=
  [("Content-Type", "application/json"), ("X-LaunchDarkly-Event-Schema", "3")]
    ++ platform.getLDHeaders

/-- `getResponseInfo(result)`: `serverTime` is attached when `dateStr` is truthy (present and
not the empty string) and `Date.parse(dateStr)` is truthy (neither `NaN` nor `0`). -/
def getResponseInfo (result : Response) : ResponseInfo :=
  match result.date with
  | none => ⟨result.status, none⟩
  | some dateStr =>
    if dateStr ≠ "" then
      match platform.dateParse dateStr with
      | some time => if time ≠ 0 then ⟨result.status, some time⟩ else ⟨result.status, none⟩
      | none => ⟨result.status, none⟩
    else ⟨result.status, none⟩

/-- The condition under which the `then` callback of `doPostRequest` retries. -/
def shouldRetry (result : Response) (canRetry : Bool) : Bool :=
  decide (result.status ≥ 400) && platform.isHttpErrorRecoverable result.status && canRetry

/-- `doPostRequest(canRetry)` inside `sendChunk`, for a platform whose `httpRequest` is
`transport`.  The `.then` callback runs on a resolved request promise; the `.catch` callback is
chained after it, so it runs when the request promise rejects and also when the promise
returned by the `.then` callback (a nested `doPostRequest(false)`) rejects. -/
def doPostRequest (transport : List Request → Request → Outcome) (url jsonBody : String)
    (canRetry : Bool) (w : World) : Promise (Option ResponseInfo) × World :=
  let request : Request := ⟨"POST", url, headers platform, jsonBody⟩
  let w1 : World := { w with requests := w.requests ++ [request] }
  let afterThen : Promise (Option ResponseInfo) × World :=
    match transport w.requests request with
    | .exception => (.rejected (), w1)
    | .noResponse => (.resolved none, w1)
    | .response result =>
      if h : shouldRetry platform result canRetry = true then
        have : canRetry = true := by
          simp only [shouldRetry, Bool.and_eq_true] at h
          exact h.2
        doPostRequest transport url jsonBody false w1
      else (.resolved (some (getResponseInfo platform result)), w1)
  match afterThen with
  | (.rejected _, w2) =>
    if h : canRetry = true then doPostRequest transport url jsonBody false w2
    else (.rejected (), w2)
  | settled => settled
termination_by (if canRetry then 1 else 0 : Nat)
decreasing_by all_goals simp_all

/-- The request each attempt of a `sendChunk` call issues. -/
def postRequest (url jsonBody : String) : Request := ⟨"POST", url, headers platform, jsonBody⟩

/-- The world after one more request. -/
def World.issue (w : World) (request : Request) : World :=
  { w with requests := w.requests ++ [request] }

/-- The length of a chunk's JSON-encoded, then URL-safe-base64-encoded representation: the
text that follows `?d=` in the pixel URL of the chunk. -/
def encodedLength (chunk : List Event) : Nat :=
  (platform.base64URLEncode (platform.stringify chunk)).length

/-- The greedy loop of the partition: `current` is the chunk being filled (never empty); the
next event joins it unless the chunk would then overflow `maxLength`, in which case the chunk is
closed and the event starts a new one. -/
def chunkLoop (maxLength : Int) : List Event → List Event → List (List Event)
  | current, [] => [current]
  | current, event :: rest =>
    if (encodedLength platform (current ++ [event]) : Int) ≤ maxLength then
      chunkLoop maxLength (current ++ [event]) rest
    else current :: chunkLoop maxLength [event] rest

/-- Modelled from the spec: `utils.chunkUserEventsForUrl(maxLength, events)` is defined in
`utils.js`, which is not among the sources.  The spec partitions the events greedily and stably:
events join the current chunk until the next one would overflow the limit, and an event that
alone exceeds the limit is not dropped, it forms a chunk of its own.  What is counted against
the limit is taken here to be the encoded chunk, `encodedLength`; the function is given the
limit and the events only (see its call in `sendEvents`).  Only the covering of the events,
which does not depend on that measure, is proved of this definition; the bounds on pixel URLs
are proved of `sendEventsWith`, for every partition function. -/
def chunkUserEventsForUrl (maxLength : Int) : List Event → List (List Event)
  | [] => []
  | event :: rest => chunkLoop platform maxLength [event] rest

/-- The URL handed to `httpFallbackPing` for a chunk:
`url + imageUrlPath + '?d=' + utils.base64URLEncode(jsonBody)`. -/
def pixelUrl (url : String) (events : List Event) : String :=
  url ++ imageUrlPath environmentId ++ "?d="
    ++ platform.base64URLEncode (platform.stringify events)

/-- `sender.sendChunk(events, url, usePost)`.  With `usePost` the rejection of `doPostRequest`
is swallowed by `.catch(() => {})`; calling an absent `platform.httpRequest` throws.  Without
`usePost` the ping is sent when `httpFallbackPing` is set and the promise is already resolved. -/
def sendChunk (events : List Event) (url : String) (usePost : Bool) (w : World) :
    Promise (Option ResponseInfo) × World :=
  let jsonBody := platform.stringify events
  if usePost then
    match platform.httpRequest with
    | none => (.threw, w)
    | some transport =>
      match doPostRequest platform transport url jsonBody true w with
      | (.rejected _, w1) => (.resolved none, w1)
      | settled => settled
  else if platform.httpFallbackPing then
    (.resolved none, { w with pings := w.pings ++ [pixelUrl platform environmentId url events] })
  else (.resolved none, w)

/-- The loop `for (...) results.push(sender.sendChunk(chunks[i], url, canPost))`; a call that
throws ends the loop. -/
def dispatchChunks (url : String) (canPost : Bool) :
    List (List Event) → World → List (Promise (Option ResponseInfo)) × World
  | [], w => ([], w)
  | chunk :: rest, w =>
    match sendChunk platform environmentId chunk url canPost w with
    | (.threw, w1) => ([.threw], w1)
    | (result, w1) =>
      let (results, w2) := dispatchChunks url canPost rest w1
      (result :: results, w2)

/-- `Promise.all(results)`: resolves with all the values when every promise resolves, and
rejects with the first rejection. -/
def promiseAll {α : Type} : List (Promise α) → Promise (List α)
  | [] => .resolved []
  | .resolved value :: rest =>
    match promiseAll rest with
    | .resolved values => .resolved (value :: values)
    | other => other
  | .rejected error :: _ => .rejected error
  | .threw :: _ => .threw

/-- The chunks `sendEvents` dispatches: the whole list when POST is usable, otherwise the
partition for the space `MAX_URL_LENGTH - url.length`. -/
def chunksFor (events : List Event) (url : String) (canPost : Bool) : List (List Event) :=
  if canPost then [events]
  else chunkUserEventsForUrl platform (MAX_URL_LENGTH - (url.length : Int)) events

/-- `sender.sendEvents(events, url)`; the value is `none` for the bare `Promise.resolve()` of a
platform without `httpRequest`, and the array of chunk results otherwise. -/
def sendEvents (events : List Event) (url : String) (w : World) :
    Promise (Option (List (Option ResponseInfo))) × World :=
  match platform.httpRequest with
  | none => (.resolved none, w)
  | some _ =>
    let canPost := platform.httpAllowsPost
    let w1 : World := { w with postQueries := w.postQueries + 1 }
    let w2 : World := if canPost then w1 else { w1 with chunkCalls := w1.chunkCalls + 1 }
    let (results, w3) :=
      dispatchChunks platform environmentId url canPost (chunksFor platform events url canPost) w2
    match promiseAll results with
    | .resolved values => (.resolved (some values), w3)
    | .rejected error => (.rejected error, w3)
    | .threw => (.threw, w3)

/-- The chunks `sendEvents` dispatches when `utils.chunkUserEventsForUrl`, which is not among
the sources, is the function `chunker`: the whole list when POST is usable, otherwise what
`chunker` returns for the space `MAX_URL_LENGTH - url.length` and the events. -/
def chunksWith (chunker : Int → List Event → List (List Event)) (events : List Event)
    (url : String) (canPost : Bool) : List (List Event) :=
  if canPost then [events] else chunker (MAX_URL_LENGTH - (url.length : Int)) events

/-- `sender.sendEvents(events, url)` with `utils.chunkUserEventsForUrl` taken as the parameter
`chunker`; `sendEvents` is `sendEventsWith` for the partition modelled from the spec. -/
def sendEventsWith (chunker : Int → List Event → List (List Event)) (events : List Event)
    (url : String) (w : World) : Promise (Option (List (Option ResponseInfo))) × World :=
  match platform.httpRequest with
  | none => (.resolved none, w)
  | some _ =>
    let canPost := platform.httpAllowsPost
    let w1 : World := { w with postQueries := w.postQueries + 1 }
    let w2 : World := if canPost then w1 else { w1 with chunkCalls := w1.chunkCalls + 1 }
    let (results, w3) :=
      dispatchChunks platform environmentId url canPost (chunksWith chunker events url canPost) w2
    match promiseAll results with
    | .resolved values => (.resolved (some values), w3)
    | .rejected error => (.rejected error, w3)
    | .threw => (.threw, w3)

end Sender

end EventSender

/-! ## TransientContextProcessor.js -/

namespace TransientContextProcessor

/-- The JavaScript values an attribute of a context can hold. -/
inductive JsValue where
  | undefined
  | null
  | bool (b : Bool)
  | num (n : Int)
  | str (s : String)
  deriving DecidableEq, Repr

namespace JsValue

/-- Truthiness, as tested by `if (v)`, `a && b` and `a || b`. -/
def truthy : JsValue → Bool
  | undefined => false
  | null => false
  | bool b => b
  | num n => n ≠ 0
  | str s => s ≠ ""

/-- The test `v !== null && v !== undefined`. -/
def isPresent : JsValue → Bool
  | undefined => false
  | null => false
  | _ => true

/-- `v.toString()` for a present value (numbers are integers here). -/
def toJsString : JsValue → String
  | undefined => "undefined"
  | null => "null"
  | bool true => "true"
  | bool false => "false"
  | num n => toString n
  | str s => s

end JsValue

/-- The `kind` of a context: absent (`undefined`), `null`, or a string. -/
inductive Kind where
  | undefined
  | null
  | name (s : String)
  deriving DecidableEq, Repr

namespace Kind

/-- Truthiness of a kind, as tested by `kind && ...`. -/
def truthy : Kind → Bool
  | name s => s ≠ ""
  | _ => false

/-- The test `kind === undefined || kind === null`. -/
def isAbsent : Kind → Bool
  | name _ => false
  | _ => true

/-- The legacy/implicit kind of the spec: `undefined`, `null` or `"user"`. -/
def isLegacy : Kind → Bool
  | name s => s = "user"
  | _ => true

/-- Two kinds are the same once `undefined`, `null` and `"user"` are identified. -/
def same (a b : Kind) : Prop := a = b ∨ (a.isLegacy = true ∧ b.isLegacy = true)

end Kind

/-- The attributes of a single-kind context other than its `kind`, or one sub-record of a
multi-kind context (whose kind is the name of the property that holds it): the attributes the
processor looks at, and the remaining ones, which it leaves alone. -/
structure Record where
  key : JsValue
  anonymous : JsValue
  transient : JsValue
  attributes : List (String × JsValue)
  deriving DecidableEq, Repr

/-- A context object.  A multi-kind context is an object whose `kind` is `'multi'` and whose
other own properties, in enumeration order, are the sub-records; every other object is a
single-kind record. -/
inductive Context where
  | single (kind : Kind) (notMulti : kind ≠ Kind.name "multi") (record : Record)
  | multi (records : List (String × Record))

/-- `context.kind`. -/
def Context.kind : Context → Kind
  | .single kind _ _ => kind
  | .multi _ => Kind.name "multi"

/-- The errors the processor rejects with: `LDInvalidUserError(messages.userNotSpecified())` and
`LDInvalidUserError(messages.invalidUser())`. -/
inductive LDInvalidUserError where
  | userNotSpecified
  | invalidUser
  deriving DecidableEq, Repr

/-- The persistent storage and the effects of the processor on it: the key-value map held by
the storage, the keys read and the entries written (oldest first), and the number of
identifiers generated so far. -/
structure Store where
  storage : String → Option String
  reads : List String
  writes : List (String × String)
  generated : Nat

/-- A promise of the processor. -/
abbrev Promise (α : Type) := Completion LDInvalidUserError α

/-- `persistentStorage.get(key)`: resolves with the stored value, `none` for `undefined`. -/
def Store.get (st : Store) (key : String) : Option String × Store :=
  (st.storage key, { st with reads := st.reads ++ [key] })

/-- `persistentStorage.set(key, value)`. -/
def Store.set (st : Store) (key value : String) : Store :=
  { st with
    storage := fun k => if k = key then some value else st.storage k
    writes := st.writes ++ [(key, value)] }

/-- `const ldUserIdKey = 'ld:$anonUserId';` -/
def ldUserIdKey : String := "ld:$anonUserId"

/-- `getContextKeyIdString(kind)`. -/
def getContextKeyIdString : Kind → String
  | .undefined => ldUserIdKey
  | .null => ldUserIdKey
  | .name s => if s = "user" then ldUserIdKey else "ld:$contextKey:" ++ s

/-- `getCachedContextKey(kind)`. -/
def getCachedContextKey (kind : Kind) (st : Store) : Option String × Store :=
  st.get (getContextKeyIdString kind)

/-- `setCachedContextKey(id, kind)`. -/
def setCachedContextKey (id : String) (kind : Kind) (st : Store) : Store :=
  st.set (getContextKeyIdString kind) id

/-- The storage after a cache miss for `kind`: the key was read, an identifier was generated
and written under the storage key of the kind. -/
def Store.afterMiss (st : Store) (kind : Kind) (id : String) : Store :=
  { storage := fun k => if k = getContextKeyIdString kind then some id else st.storage k
    reads := st.reads ++ [getContextKeyIdString kind]
    writes := st.writes ++ [(getContextKeyIdString kind, id)]
    generated := st.generated + 1 }

/-- The storage after a cache hit for `kind`: the key was read. -/
def Store.afterHit (st : Store) (kind : Kind) : Store :=
  { st with reads := st.reads ++ [getContextKeyIdString kind] }

/-- The value of `transient` in `processSingleKindContext`, as a truth value:
`((kind === undefined || kind === null) && context.anonymous) || (kind && context.transient)`. -/
def isTransient (kind : Kind) (context : Record) : Bool :=
  (kind.isAbsent && context.anonymous.truthy) || (kind.truthy && context.transient.truthy)

/-- The transience flag the processor consults for a kind: `anonymous` when the kind is absent
(`undefined` or `null`), `transient` when it is a string. -/
def transienceFlag (kind : Kind) (context : Record) : JsValue :=
  if kind.isAbsent then context.anonymous else context.transient

/-- The transience flag in the words of the spec: `anonymous` for the legacy/implicit kind
(`undefined`, `null`, that is `"user"`), `transient` for an explicit kind. -/
def specTransienceFlag (kind : Kind) (context : Record) : JsValue :=
  if kind.isLegacy then context.anonymous else context.transient

/-- The constituent single-kind records of a context, each with its kind. -/
def Context.records : Context → List (Kind × Record)
  | .single kind _ record => [(kind, record)]
  | .multi records => records.map (fun entry => (Kind.name entry.1, entry.2))

/-- The properties of a multi-kind object other than `kind` have distinct names. -/
def Context.WellFormed : Context → Prop
  | .single _ _ _ => True
  | .multi records => (records.map Prod.fst).Nodup ∧ "kind" ∉ records.map Prod.fst

/-- What resolution does to a record: `processed` is `record` with `key` replaced by a string,
the coercion of the key the record had, or a non-empty identifier when it had none. -/
def Record.Processed (record processed : Record) : Prop :=
  ∃ key, processed = { record with key := .str key } ∧
    (record.key.isPresent = true → key = record.key.toJsString) ∧
    (record.key.isPresent = false → key ≠ "")

/-- A key-less record whose kind `kind` does not make it transient for the processor. -/
def Record.Invalid (kind : String) (record : Record) : Prop :=
  record.key.isPresent = false ∧ isTransient (Kind.name kind) record = false

/-- How the record `record` of kind name `kind` is resolved between the storage states `st` and
`st1`.  A record with a key becomes `processed` by the coercion of its key, and the entry of its
kind is in `st1` what it was in `st`.  A record without a key becomes `processed` by an
identifier that is the entry of its kind in `st1`: the non-empty entry of `st`, or, when `st`
has no entry or an empty one, an identifier generated between `st` and `st1`. -/
def Record.ResolvedWith (uuidv1 : Nat → String) (kind : String) (record processed : Record)
    (st st1 : Store) : Prop :=
  (record.key.isPresent = true →
    processed = { record with key := .str record.key.toJsString } ∧
      st1.storage (getContextKeyIdString (.name kind)) =
        st.storage (getContextKeyIdString (.name kind))) ∧
  (record.key.isPresent = false →
    ∃ id, processed = { record with key := .str id } ∧
      st1.storage (getContextKeyIdString (.name kind)) = some id ∧
      ((id ≠ "" ∧ st.storage (getContextKeyIdString (.name kind)) = some id) ∨
        ((st.storage (getContextKeyIdString (.name kind)) = none ∨
            st.storage (getContextKeyIdString (.name kind)) = some "") ∧
          ∃ n, st.generated ≤ n ∧ n < st1.generated ∧ id = uuidv1 n)))

/-- A storage that holds nothing, on which nothing has happened yet. -/
def Store.empty : Store := ⟨fun _ => none, [], [], 0⟩

section Processor

-- The generator `uuidv1`: the identifier returned by its `n`-th call (counting from 0).
variable (uuidv1 : Nat → String)

/-- `processSingleKindContext(kind, context)`, with the storage callbacks run to completion.
The record returned on resolution is `context` after the assignment of `context.key`. -/
def processSingleKindContext (kind : Kind) (context : Record) (st : Store) :
    Promise Record × Store :=
  if context.key.isPresent then
    (.resolved { context with key := .str context.key.toJsString }, st)
  else if isTransient kind context then
    match getCachedContextKey kind st with
    | (some cachedId, st1) =>
      if cachedId ≠ "" then (.resolved { context with key := .str cachedId }, st1)
      else
        let id := uuidv1 st1.generated
        let st2 : Store := { st1 with generated := st1.generated + 1 }
        (.resolved { context with key := .str id }, setCachedContextKey id kind st2)
    | (none, st1) =>
      let id := uuidv1 st1.generated
      let st2 : Store := { st1 with generated := st1.generated + 1 }
      (.resolved { context with key := .str id }, setCachedContextKey id kind st2)
  else (.rejected .invalidUser, st)

/-- Modelled from the spec: `utils.clone` is defined in `utils.js`, which is not among the
sources; it returns a deep copy of its argument.  Values are immutable here, so the copy is the
value itself. -/
def clone (context : Context) : Context := context

/-- Modelled from the spec: `getContextKinds` is defined in `context.js`, which is not among the
sources; for a multi-kind context it enumerates every kind present as a sub-record key,
excluding the `kind` field itself. -/
def getContextKinds (records : List (String × Record)) : List String :=
  (records.map Prod.fst).filter (fun k => k ≠ "kind")

/-- `processedContext[kind]`: the first property of that name. -/
def getRecord (kind : String) : List (String × Record) → Option Record
  | [] => none
  | (k, record) :: rest => if k = kind then some record else getRecord kind rest

/-- The in-place update of `processedContext[kind]`. -/
def setRecord (kind : String) (value : Record) : List (String × Record) → List (String × Record)
  | [] => []
  | (k, record) :: rest =>
    if k = kind then (k, value) :: rest else (k, record) :: setRecord kind value rest

/-- The property `kind` of `processed` is the property `kind` of `records`, processed. -/
def ProcessedAt (records processed : List (String × Record)) (kind : String) : Prop :=
  ∃ r p, getRecord kind records = some r ∧ getRecord kind processed = some p ∧ r.Processed p

/-- Every property of `processed` is the property of `records` of that name, as it was or
processed. -/
def Evolved (records processed : List (String × Record)) : Prop :=
  ∀ kind, getRecord kind processed = getRecord kind records ∨ ProcessedAt records processed kind

/-- `kinds.map(kind => processSingleKindContext(kind, processedContext[kind]))`, with every
storage callback run to completion.  The callbacks of different kinds interleave in the
program, but each of them touches only the storage key of its own kind, so they are run here
one kind after the other.  A kind without a property throws (a property read on `undefined`). -/
def processKinds : List String → List (String × Record) → Store →
    List (Promise Unit) × List (String × Record) × Store
  | [], records, st => ([], records, st)
  | kind :: rest, records, st =>
    match getRecord kind records with
    | none => ([.threw], records, st)
    | some record =>
      match processSingleKindContext uuidv1 (.name kind) record st with
      | (.resolved processed, st1) =>
        let (results, records2, st2) := processKinds rest (setRecord kind processed records) st1
        (.resolved () :: results, records2, st2)
      | (.rejected error, st1) =>
        let (results, records2, st2) := processKinds rest records st1
        (.rejected error :: results, records2, st2)
      | (.threw, st1) => ([.threw], records, st1)

/-- `Promise.all(results)` followed by `.then(() => processedContext)`: rejects with the first
rejection, and otherwise resolves with the processed context. -/
def allThen {α : Type} (value : α) : List (Promise Unit) → Promise α
  | [] => .resolved value
  | .resolved _ :: rest => allThen value rest
  | .rejected error :: _ => .rejected error
  | .threw :: _ => .threw

/-- `this.processContext(context)`; `none` stands for an absent (falsy) context. -/
def processContext (context : Option Context) (st : Store) : Promise Context × Store :=
  match context with
  | none => (.rejected .userNotSpecified, st)
  | some context =>
    match clone context with
    | .multi records =>
      let kinds := getContextKinds records
      let (results, processed, st1) := processKinds uuidv1 kinds records st
      (allThen (Context.multi processed) results, st1)
    | .single kind notMulti processedContext =>
      match processSingleKindContext uuidv1 context.kind processedContext st with
      | (.resolved record, st1) => (.resolved (.single kind notMulti record), st1)
      | (.rejected error, st1) => (.rejected error, st1)
      | (.threw, st1) => (.threw, st1)

end Processor

end TransientContextProcessor

/-! ## Concrete collaborators

Instances of the collaborators, on which the definitions above are evaluated. -/

namespace Demo

open EventSender

/-- An event with two string attributes. -/
structure Event where
  kind : String
  key : String
  deriving DecidableEq, Repr

/-- `JSON.stringify` of one event (the attributes hold no character that needs escaping). -/
def stringifyEvent (e : Event) : String :=
  "\x7b\"kind\":\"" ++ e.kind ++ "\",\"key\":\"" ++ e.key ++ "\"\x7d"

/-- `JSON.stringify` of an array of events. -/
def stringify (events : List Event) : String :=
  "[" ++ ",".intercalate (events.map stringifyEvent) ++ "]"

/-- The URL-safe base64 alphabet. -/
def alphabet : List Char :=
  "ABCDEFGHIJKLMNOPQRSTUVWXYZabcdefghijklmnopqrstuvwxyz0123456789-_".toList

/-- The character of a six-bit value. -/
def sextet (n : Nat) : Char := alphabet.getD n 'A'

/-- Base64 of a list of bytes, without padding. -/
def base64Bytes : List Nat → List Char
  | a :: b :: c :: rest =>
    sextet (a / 4) :: sextet (a % 4 * 16 + b / 16) :: sextet (b % 16 * 4 + c / 64)
      :: sextet (c % 64) :: base64Bytes rest
  | [a, b] => [sextet (a / 4), sextet (a % 4 * 16 + b / 16), sextet (b % 16 * 4)]
  | [a] => [sextet (a / 4), sextet (a % 4 * 16)]
  | [] => []

/-- `utils.base64URLEncode` on ASCII text: base64 with `-` and `_`, padding removed. -/
def base64URLEncode (s : String) : String := String.mk (base64Bytes (s.toList.map Char.toNat))

/-- A classifier of recoverable statuses: request timeout, rate limiting and server errors. -/
def isHttpErrorRecoverable (status : Int) : Bool :=
  status = 408 || status = 429 || decide (status ≥ 500)

/-- A platform with the given transport, POST capability and fallback ping. -/
def platform (transport : Option (List Request → Request → Outcome)) (allowsPost ping : Bool) :
    Platform Event where
  httpRequest := transport
  httpAllowsPost := allowsPost
  httpFallbackPing := ping
  stringify := stringify
  base64URLEncode := base64URLEncode
  getLDHeaders := [("User-Agent", "JSClient/1.0")]
  isHttpErrorRecoverable := isHttpErrorRecoverable
  dateParse := fun _ => none

/-- A transport that answers the requests in turn with the listed outcomes, and with no
response once the list is used up. -/
def scripted (outcomes : List Outcome) : List Request → Request → Outcome :=
  fun history _ => outcomes.getD history.length .noResponse

/-- A generator of identifiers. -/
def uuidv1 (n : Nat) : String :=
  ["6c84fb90-12c4-11e1-840d-7b25c5ee775a", "6c84fb91-12c4-11e1-840d-7b25c5ee775a"].getD n
    "6c84fb92-12c4-11e1-840d-7b25c5ee775a"

/-- Two events. -/
def twoEvents : List Event := [⟨"identify", "abc"⟩, ⟨"custom", "d"⟩]

/-- Two events with keys of 700 characters each. -/
def longEvents : List Event :=
  [⟨"identify", String.mk (List.replicate 700 'a')⟩,
    ⟨"custom", String.mk (List.replicate 700 'b')⟩]

/-- A platform that cannot POST and has a fallback ping. -/
def pingPlatform : Platform Event := platform (some (scripted [])) false true

/-- The value of `Date.parse` on three texts: the start of the epoch, a later date, and, for
everything else, `NaN`. -/
def dateParse (text : String) : Option Int :=
  if text = "Thu, 01 Jan 1970 00:00:00 GMT" then some 0
  else if text = "Wed, 21 Oct 2015 07:28:00 GMT" then some 1445412480000
  else none

/-- A platform that can POST and parses dates with `dateParse`. -/
def clockPlatform : Platform Event :=
  { platform (some (scripted [])) true false with dateParse := dateParse }

end Demo

/-! ## Delivery: the retry policy of `doPostRequest` -/

namespace EventSender

section SenderProofs

variable {Event : Type} (platform : Platform Event) (environmentId : String)

/-- An attempt that may not retry issues its request and settles from the outcome alone. -/
theorem doPostRequest_false (transport : List Request → Request → Outcome)
    (url jsonBody : String) (w : World) :
    doPostRequest platform transport url jsonBody false w =
      (match transport w.requests (postRequest platform url jsonBody) with
        | .exception => .rejected ()
        | .noResponse => .resolved none
        | .response result => .resolved (some (getResponseInfo platform result)),
       w.issue (postRequest platform url jsonBody)) := by
  rw [doPostRequest]
  simp only [postRequest, World.issue, shouldRetry, Bool.and_false]
  cases transport w.requests ⟨"POST", url, headers platform, jsonBody⟩ <;> simp

/-- The first attempt: a rejected request promise is retried by the `catch` callback, and a
recoverable status by the `then` callback, whose own rejection reaches the `catch` callback. -/
theorem doPostRequest_true (transport : List Request → Request → Outcome)
    (url jsonBody : String) (w : World) :
    doPostRequest platform transport url jsonBody true w =
      (match transport w.requests (postRequest platform url jsonBody) with
        | .exception =>
          doPostRequest platform transport url jsonBody false
            (w.issue (postRequest platform url jsonBody))
        | .noResponse => (.resolved none, w.issue (postRequest platform url jsonBody))
        | .response result =>
          if shouldRetry platform result true = true then
            match doPostRequest platform transport url jsonBody false
                (w.issue (postRequest platform url jsonBody)) with
            | (.rejected _, w2) => doPostRequest platform transport url jsonBody false w2
            | settled => settled
          else (.resolved (some (getResponseInfo platform result)),
                w.issue (postRequest platform url jsonBody))) := by
  rw [doPostRequest]
  simp only [postRequest, World.issue]
  cases transport w.requests ⟨"POST", url, headers platform, jsonBody⟩ with
  | noResponse => simp
  | exception => simp
  | response result =>
    by_cases h : shouldRetry platform result true = true
    · simp [h]
    · simp [h]

/-- An attempt never throws synchronously, and it only adds copies of the one request to the
world: one copy when it may not retry, and between one and three when it may. -/
theorem doPostRequest_effect (transport : List Request → Request → Outcome)
    (url jsonBody : String) (canRetry : Bool) (w : World) :
    (doPostRequest platform transport url jsonBody canRetry w).1 ≠ .threw ∧
      ∃ n, 1 ≤ n ∧ n ≤ (if canRetry = true then 3 else 1) ∧
        (doPostRequest platform transport url jsonBody canRetry w).2 =
          { w with requests :=
              w.requests ++ List.replicate n (postRequest platform url jsonBody) } := by
  have hfalse : ∀ w : World,
      (doPostRequest platform transport url jsonBody false w).1 ≠ .threw ∧
        (doPostRequest platform transport url jsonBody false w).2 =
          w.issue (postRequest platform url jsonBody) := by
    intro w
    rw [doPostRequest_false]
    refine ⟨?_, rfl⟩
    cases transport w.requests (postRequest platform url jsonBody) <;> simp
  have hone : ∀ w : World, w.issue (postRequest platform url jsonBody) =
      { w with requests :=
          w.requests ++ List.replicate 1 (postRequest platform url jsonBody) } := by
    intro w
    simp [World.issue]
  cases canRetry with
  | false =>
    refine ⟨(hfalse w).1, 1, le_refl _, by simp, ?_⟩
    rw [(hfalse w).2, hone]
  | true =>
    rw [doPostRequest_true]
    cases transport w.requests (postRequest platform url jsonBody) with
    | noResponse => exact ⟨by simp, 1, le_refl _, by simp, hone w⟩
    | exception =>
      refine ⟨(hfalse _).1, 2, by omega, by simp, ?_⟩
      rw [(hfalse _).2]
      simp [World.issue, List.replicate]
    | response result =>
      by_cases h : shouldRetry platform result true = true
      · simp only [h, if_true]
        have h2 := hfalse (w.issue (postRequest platform url jsonBody))
        rcases hd : doPostRequest platform transport url jsonBody false
            (w.issue (postRequest platform url jsonBody)) with ⟨settled, w2⟩
        rw [hd] at h2
        simp only at h2
        cases settled with
        | threw => exact absurd rfl h2.1
        | resolved value =>
          refine ⟨by simp, 2, by omega, by simp, ?_⟩
          simp [h2.2, World.issue, List.replicate]
        | rejected error =>
          refine ⟨(hfalse _).1, 3, by omega, by simp, ?_⟩
          simp [(hfalse _).2, h2.2, World.issue, List.replicate]
      · simp only [h, if_false]
        exact ⟨by simp, 1, le_refl _, by simp, hone w⟩

end SenderProofs

end EventSender

/-! ## Delivery: `sendChunk` and `sendEvents` -/

namespace EventSender

section DeliveryProofs

variable {Event : Type} (platform : Platform Event) (environmentId : String)

/-- With POST, `sendChunk` on a platform that has a transport resolves, and its world is the
one `doPostRequest(true)` leaves. -/
theorem sendChunk_post (transport : List Request → Request → Outcome)
    (h : platform.httpRequest = some transport) (events : List Event) (url : String) (w : World) :
    (sendChunk platform environmentId events url true w).1.isResolved = true ∧
      (sendChunk platform environmentId events url true w).2 =
        (doPostRequest platform transport url (platform.stringify events) true w).2 := by
  have hne := (doPostRequest_effect platform transport url (platform.stringify events) true w).1
  simp only [sendChunk, h, if_true]
  rcases hd : doPostRequest platform transport url (platform.stringify events) true w
    with ⟨settled, w1⟩
  rw [hd] at hne
  cases settled with
  | threw => exact absurd rfl hne
  | resolved value => exact ⟨rfl, rfl⟩
  | rejected error => exact ⟨rfl, rfl⟩

/-- Without POST, `sendChunk` resolves with `undefined` at once. -/
theorem sendChunk_ping (events : List Event) (url : String) (w : World) :
    (sendChunk platform environmentId events url false w).1 = .resolved none := by
  simp only [sendChunk, Bool.false_eq_true, if_false]
  split <;> rfl

/-- On a platform that has a transport every dispatched chunk resolves. -/
theorem dispatchChunks_resolved (transport : List Request → Request → Outcome)
    (h : platform.httpRequest = some transport) (url : String) (canPost : Bool)
    (chunks : List (List Event)) (w : World) :
    ∀ result ∈ (dispatchChunks platform environmentId url canPost chunks w).1,
      result.isResolved = true := by
  induction chunks generalizing w with
  | nil => simp [dispatchChunks]
  | cons chunk rest ih =>
    have hres : (sendChunk platform environmentId chunk url canPost w).1.isResolved = true := by
      cases canPost with
      | true => exact (sendChunk_post platform environmentId transport h chunk url w).1
      | false => rw [sendChunk_ping]; rfl
    rcases hs : sendChunk platform environmentId chunk url canPost w with ⟨settled, w1⟩
    rw [hs] at hres
    cases settled with
    | threw => simp [Completion.isResolved] at hres
    | rejected error => simp [Completion.isResolved] at hres
    | resolved value =>
      simp only [dispatchChunks, hs]
      intro result hmem
      rcases List.mem_cons.mp hmem with heq | hmem
      · rw [heq]; rfl
      · exact ih w1 result hmem

/-- `Promise.all` of promises that all resolve resolves. -/
theorem promiseAll_resolved {α : Type} (results : List (Promise α))
    (h : ∀ result ∈ results, result.isResolved = true) :
    (promiseAll results).isResolved = true := by
  induction results with
  | nil => rfl
  | cons result rest ih =>
    have hrest := ih (fun r hr => h r (List.mem_cons_of_mem _ hr))
    have hhead := h result (List.mem_cons_self _ _)
    cases result with
    | threw => simp [Completion.isResolved] at hhead
    | rejected error => simp [Completion.isResolved] at hhead
    | resolved value =>
      simp only [promiseAll]
      cases hp : promiseAll rest with
      | threw => rw [hp] at hrest; simp [Completion.isResolved] at hrest
      | rejected error => rw [hp] at hrest; simp [Completion.isResolved] at hrest
      | resolved values => rfl

/-- `sendEvents` resolves on every platform. -/
theorem sendEvents_resolved (events : List Event) (url : String) (w : World) :
    (sendEvents platform environmentId events url w).1.isResolved = true := by
  cases h : platform.httpRequest with
  | none => simp [sendEvents, h, Completion.isResolved]
  | some transport =>
    simp only [sendEvents, h]
    have hall := promiseAll_resolved _
      (dispatchChunks_resolved platform environmentId transport h url platform.httpAllowsPost
        (chunksFor platform events url platform.httpAllowsPost)
        (if platform.httpAllowsPost = true then
          { w with postQueries := w.postQueries + 1 }
        else { w with postQueries := w.postQueries + 1, chunkCalls := w.chunkCalls + 1 }))
    rcases hd : dispatchChunks platform environmentId url platform.httpAllowsPost
        (chunksFor platform events url platform.httpAllowsPost)
        (if platform.httpAllowsPost = true then
          { w with postQueries := w.postQueries + 1 }
        else { w with postQueries := w.postQueries + 1, chunkCalls := w.chunkCalls + 1 })
      with ⟨results, w3⟩
    rw [hd] at hall
    simp only at hall
    cases hp : promiseAll results with
    | threw => rw [hp] at hall; simp [Completion.isResolved] at hall
    | rejected error => rw [hp] at hall; simp [Completion.isResolved] at hall
    | resolved values => rfl

end DeliveryProofs

end EventSender

/-! ## Delivery: the claims -/

namespace EventSender

section DeliveryClaims

variable {Event : Type} (platform : Platform Event) (environmentId : String)

/-- C1, evaluated on the code: when the first POST response has the recoverable status 500 and
the retry fails with a transport-level exception, `sendChunk` does not stop after the second
request; the rejection of the nested attempt reaches the outer `catch` callback, which issues a
third, identical request, and the promise resolves with the result of that third attempt. -/
theorem sendChunk_recoverable_then_exception_sends_third_request :
    sendChunk
        (Demo.platform
          (some (Demo.scripted [.response ⟨500, none⟩, .exception, .response ⟨200, none⟩]))
          true false)
        "env" Demo.twoEvents "https://events.example.com" true World.init =
      (.resolved (some ⟨200, none⟩),
        ⟨List.replicate 3
            ⟨"POST", "https://events.example.com",
              [("Content-Type", "application/json"), ("X-LaunchDarkly-Event-Schema", "3"),
                ("User-Agent", "JSClient/1.0")],
              Demo.stringify Demo.twoEvents⟩,
          [], 0, 0⟩) := by
  simp [sendChunk, Demo.platform, Demo.scripted, doPostRequest, World.init, shouldRetry,
    getResponseInfo, headers, Demo.isHttpErrorRecoverable]

/-- C5: whatever the events, the url and the behaviour of the transport, the promise returned by
`sendChunk(events, url, true)` does not reject (it resolves whenever the platform has a
transport at all), and the promise returned by `sendEvents` always resolves. -/
theorem sendChunk_post_and_sendEvents_never_reject (events : List Event) (url : String)
    (w : World) :
    (sendChunk platform environmentId events url true w).1.isRejected = false ∧
      (platform.httpRequest = none ∨
        (sendChunk platform environmentId events url true w).1.isResolved = true) ∧
      (sendEvents platform environmentId events url w).1.isResolved = true ∧
      (sendEvents platform environmentId events url w).1.isRejected = false := by
  have hsend := sendEvents_resolved platform environmentId events url w
  have hchunk : platform.httpRequest = none ∨
      (sendChunk platform environmentId events url true w).1.isResolved = true := by
    cases h : platform.httpRequest with
    | none => exact Or.inl rfl
    | some transport =>
      exact Or.inr (sendChunk_post platform environmentId transport h events url w).1
  refine ⟨?_, hchunk, hsend, ?_⟩
  · rcases hchunk with hnone | hres
    · simp [sendChunk, hnone, Completion.isRejected]
    · cases hs : (sendChunk platform environmentId events url true w).1 with
      | resolved value => rfl
      | rejected error => rw [hs] at hres; simp [Completion.isResolved] at hres
      | threw => rfl
  · cases hs : (sendEvents platform environmentId events url w).1 with
    | resolved value => rfl
    | rejected error => rw [hs] at hsend; simp [Completion.isResolved] at hsend
    | threw => rfl

/-- C8: when the platform has a transport and `httpAllowsPost()` is true, `sendEvents` dispatches
one chunk, the whole event list, with `usePost = true`: it behaves as that one `sendChunk` call
and resolves with the one-element array of its result; every request issued is the POST of the
JSON encoding of the full list (between one and three copies of it); and exactly one request is
issued when the first attempt yields no response or a response that is not a recoverable
status of 400 or more. -/
theorem sendEvents_post_sends_whole_list (transport : List Request → Request → Outcome)
    (hhttp : platform.httpRequest = some transport) (hpost : platform.httpAllowsPost = true)
    (events : List Event) (url : String) (w : World) :
    chunksFor platform events url platform.httpAllowsPost = [events] ∧
      (∃ value,
        sendChunk platform environmentId events url true
            { w with postQueries := w.postQueries + 1 } =
          (.resolved value, (sendEvents platform environmentId events url w).2) ∧
        (sendEvents platform environmentId events url w).1 = .resolved (some [value])) ∧
      (∃ n, 1 ≤ n ∧ n ≤ 3 ∧
        (sendEvents platform environmentId events url w).2.requests =
          w.requests ++
            List.replicate n ⟨"POST", url, headers platform, platform.stringify events⟩) ∧
      ((transport w.requests ⟨"POST", url, headers platform, platform.stringify events⟩ =
            .noResponse ∨
          ∃ result,
            transport w.requests ⟨"POST", url, headers platform, platform.stringify events⟩ =
                .response result ∧
              ¬ (result.status ≥ 400 ∧
                  platform.isHttpErrorRecoverable result.status = true)) →
        (sendEvents platform environmentId events url w).2.requests =
          w.requests ++ [⟨"POST", url, headers platform, platform.stringify events⟩]) := by
  have hres := sendChunk_post platform environmentId transport hhttp events url
    { w with postQueries := w.postQueries + 1 }
  have heff := doPostRequest_effect platform transport url (platform.stringify events) true
    { w with postQueries := w.postQueries + 1 }
  have hsend : sendEvents platform environmentId events url w =
      (match (sendChunk platform environmentId events url true
          { w with postQueries := w.postQueries + 1 }).1 with
        | .resolved value => .resolved (some [value])
        | .rejected error => .rejected error
        | .threw => .threw,
       (sendChunk platform environmentId events url true
          { w with postQueries := w.postQueries + 1 }).2) := by
    simp only [sendEvents, hhttp, hpost, chunksFor, if_true, dispatchChunks]
    rcases hs : sendChunk platform environmentId events url true
        { w with postQueries := w.postQueries + 1 } with ⟨settled, w1⟩
    cases settled <;> simp [promiseAll]
  rcases hs : sendChunk platform environmentId events url true
      { w with postQueries := w.postQueries + 1 } with ⟨settled, w1⟩
  rw [hs] at hres hsend
  simp only at hres hsend
  cases settled with
  | threw => simp [Completion.isResolved] at hres
  | rejected error => simp [Completion.isResolved] at hres
  | resolved value =>
    simp only at hsend
    obtain ⟨n, hn1, hn3, hw⟩ := heff.2
    simp only [if_true] at hn3
    refine ⟨by simp [chunksFor, hpost], ⟨value, by rw [hsend], by rw [hsend]⟩,
      ⟨n, hn1, hn3, ?_⟩, ?_⟩
    · rw [hsend]
      simp only
      rw [hres.2, hw]
      rfl
    · intro hfirst
      rw [hsend]
      simp only
      rw [hres.2, doPostRequest_true]
      rcases hfirst with hno | ⟨result, hresp, hnot⟩
      · simp only [postRequest]
        rw [hno]
        rfl
      · simp only [postRequest]
        rw [hresp]
        have hsr : shouldRetry platform result true = false := by
          simp only [shouldRetry, Bool.and_true]
          by_contra hc
          rw [Bool.not_eq_false, Bool.and_eq_true, decide_eq_true_eq] at hc
          exact hnot hc
        simp only [hsr, Bool.false_eq_true, if_false]
        rfl

/-- C8, on a concrete platform: a transport that answers the first request with status 200. -/
theorem sendEvents_post_sends_whole_list_witness :
    (Demo.platform (some (Demo.scripted [.response ⟨200, none⟩])) true false).httpRequest =
        some (Demo.scripted [.response ⟨200, none⟩]) ∧
      (sendEvents (Demo.platform (some (Demo.scripted [.response ⟨200, none⟩])) true false)
          "env" Demo.twoEvents "https://events.example.com" World.init).2.requests =
        [⟨"POST", "https://events.example.com",
          headers (Demo.platform (some (Demo.scripted [.response ⟨200, none⟩])) true false),
          Demo.stringify Demo.twoEvents⟩] :=
  ⟨rfl,
    (sendEvents_post_sends_whole_list
      (Demo.platform (some (Demo.scripted [.response ⟨200, none⟩])) true false) "env"
      (Demo.scripted [.response ⟨200, none⟩]) rfl rfl Demo.twoEvents
      "https://events.example.com" World.init).2.2.2
      (Or.inr ⟨⟨200, none⟩, rfl, by decide⟩)⟩

end DeliveryClaims

end EventSender

/-! ## Delivery: the partition for the fallback ping -/

namespace EventSender

section ChunkProofs

variable {Event : Type} (platform : Platform Event) (environmentId : String)

/-- The length of a pixel URL: the url, the image path, `?d=` and the encoded chunk. -/
theorem pixelUrl_length (url : String) (events : List Event) :
    (pixelUrl platform environmentId url events).length =
      url.length + (imageUrlPath environmentId).length + 3 + encodedLength platform events := by
  have h : "?d=".length = 3 := rfl
  simp only [pixelUrl, encodedLength, String.length_append, h]

/-- Without POST the chunks are dispatched as fallback pings, one pixel URL per chunk, and no
request is issued. -/
theorem dispatchChunks_ping (url : String) (chunks : List (List Event)) (w : World) :
    dispatchChunks platform environmentId url false chunks w =
      (chunks.map (fun _ => .resolved none),
        { w with pings := w.pings ++
            if platform.httpFallbackPing = true then
              chunks.map (pixelUrl platform environmentId url)
            else [] }) := by
  induction chunks generalizing w with
  | nil => cases hp : platform.httpFallbackPing <;> simp [dispatchChunks]
  | cons chunk rest ih =>
    cases hp : platform.httpFallbackPing <;>
      simp [dispatchChunks, sendChunk, hp, ih]

/-- Without POST, `sendEvents` pings the pixel URL of every chunk of the partition, in order. -/
theorem sendEvents_ping (transport : List Request → Request → Outcome)
    (hhttp : platform.httpRequest = some transport) (hpost : platform.httpAllowsPost = false)
    (events : List Event) (url : String) (w : World) :
    (sendEvents platform environmentId events url w).2 =
      { w with
        pings := w.pings ++
          if platform.httpFallbackPing = true then
            (chunksFor platform events url false).map (pixelUrl platform environmentId url)
          else []
        postQueries := w.postQueries + 1
        chunkCalls := w.chunkCalls + 1 } := by
  simp only [sendEvents, hhttp, hpost, Bool.false_eq_true, if_false, dispatchChunks_ping]
  split <;> rfl

end ChunkProofs

end EventSender

namespace Demo

open EventSender

/-- The length of unpadded base64. -/
theorem base64Bytes_length (bytes : List Nat) :
    (base64Bytes bytes).length = (4 * bytes.length + 2) / 3 := by
  induction bytes using base64Bytes.induct with
  | case1 a b c rest ih => simp only [base64Bytes, List.length_cons, ih]; omega
  | case2 a b => simp [base64Bytes]
  | case3 a => simp [base64Bytes]
  | case4 => simp [base64Bytes]

/-- The length of the URL-safe base64 encoding of a text. -/
theorem base64URLEncode_length (s : String) :
    (base64URLEncode s).length = (4 * s.length + 2) / 3 := by
  show (base64Bytes (s.toList.map Char.toNat)).length = _
  rw [base64Bytes_length, List.length_map]
  rfl

/-- The length of the JSON encoding of two events. -/
theorem stringify_two_length (a b : Event) :
    (stringify [a, b]).length =
      a.kind.length + a.key.length + b.kind.length + b.key.length + 43 := by
  have h1 : "[".length = 1 := rfl
  have h2 : "\x7b\"kind\":\"".length = 9 := rfl
  have h3 : "\",\"key\":\"".length = 9 := rfl
  have h4 : "\"\x7d".length = 2 := rfl
  have h5 : ",".length = 1 := rfl
  have h6 : "]".length = 1 := rfl
  simp only [stringify, stringifyEvent, List.map, String.intercalate, String.intercalate.go,
    String.length_append, h1, h2, h3, h4, h5, h6]
  omega

/-- The encoded length of the two long events. -/
theorem encodedLength_longEvents : encodedLength pingPlatform longEvents = 1943 := by
  simp only [encodedLength, pingPlatform, platform, base64URLEncode_length, longEvents,
    stringify_two_length, String.length_mk, List.length_replicate]
  decide

/-- The two long events form one chunk for the url of the events service. -/
theorem chunksFor_longEvents :
    chunksFor pingPlatform longEvents "https://events.launchdarkly.com" false = [longEvents] := by
  have hurl : "https://events.launchdarkly.com".length = 31 := by decide
  have h := encodedLength_longEvents
  simp only [longEvents] at h
  have hfit : ((1943 : Nat) : Int) ≤ 2000 - ((31 : Nat) : Int) := by decide
  simp only [chunksFor, Bool.false_eq_true, if_false, longEvents, chunkUserEventsForUrl,
    chunkLoop, List.singleton_append, h, hurl, MAX_URL_LENGTH, hfit, if_true]

end Demo

namespace Demo

open EventSender

/-- The length of the JSON encoding of one event. -/
theorem stringifyEvent_length (e : Event) :
    (stringifyEvent e).length = e.kind.length + e.key.length + 20 := by
  have h2 : "\x7b\"kind\":\"".length = 9 := rfl
  have h3 : "\",\"key\":\"".length = 9 := rfl
  have h4 : "\"\x7d".length = 2 := rfl
  simp only [stringifyEvent, String.length_append, h2, h3, h4]
  omega

/-- The encoded lengths of the two long events, each on its own. -/
theorem encodedLength_each_longEvent :
    (base64URLEncode
        (stringifyEvent ⟨"identify", String.mk (List.replicate 700 'a')⟩)).length = 971 ∧
      (base64URLEncode
        (stringifyEvent ⟨"custom", String.mk (List.replicate 700 'b')⟩)).length = 968 := by
  have h1 : "identify".length = 8 := rfl
  have h2 : "custom".length = 6 := rfl
  simp only [base64URLEncode_length, stringifyEvent_length, String.length_mk,
    List.length_replicate, h1, h2]
  decide

end Demo

namespace EventSender

section ChunkClaims

variable {Event : Type} (platform : Platform Event) (environmentId : String)

/-- The function `sendEvents` is `sendEventsWith` for the partition modelled from the spec. -/
theorem sendEvents_eq_sendEventsWith (events : List Event) (url : String) (w : World) :
    sendEvents platform environmentId events url w =
      sendEventsWith platform environmentId (chunkUserEventsForUrl platform) events url w :=
  rfl

/-- Without POST, `sendEventsWith` pings the pixel URL of every chunk the partition returns for
the space `MAX_URL_LENGTH - url.length`, in order, and issues no request. -/
theorem sendEventsWith_ping (chunker : Int → List Event → List (List Event))
    (transport : List Request → Request → Outcome)
    (hhttp : platform.httpRequest = some transport) (hpost : platform.httpAllowsPost = false)
    (events : List Event) (url : String) (w : World) :
    (sendEventsWith platform environmentId chunker events url w).2 =
      { w with
        pings := w.pings ++
          if platform.httpFallbackPing = true then
            (chunker (MAX_URL_LENGTH - (url.length : Int)) events).map
              (pixelUrl platform environmentId url)
          else []
        postQueries := w.postQueries + 1
        chunkCalls := w.chunkCalls + 1 } := by
  simp only [sendEventsWith, chunksWith, hhttp, hpost, Bool.false_eq_true, if_false,
    dispatchChunks_ping]
  split <;> rfl

/-- The length of the image path of an environment. -/
theorem imageUrlPath_length : (imageUrlPath environmentId).length = environmentId.length + 7 := by
  have h1 : "/a/".length = 3 := rfl
  have h2 : ".gif".length = 4 := rfl
  simp only [imageUrlPath, String.length_append, h1, h2]
  omega

/-- C9 as stated fails.  For the url `https://events.launchdarkly.com`, of 31 characters,
`sendEvents` asks the partition for chunks within 2000 - 31 = 1969 characters.  The two events
of `Demo.longEvents` encode to 971 and 968 characters, 1939 together, and as one chunk to 1943:
within 1969 however they are counted.  Whatever the partition function is, when it returns
them as one chunk `sendEvents` pings one pixel URL, for a chunk of two events, and that URL has
1987 characters, more than 1969. -/
theorem pixelUrl_of_two_events_exceeds_limit :
    MAX_URL_LENGTH - ("https://events.launchdarkly.com".length : Int) = 1969 ∧
      Demo.longEvents.length = 2 ∧
      (Demo.base64URLEncode
        (Demo.stringifyEvent ⟨"identify", String.mk (List.replicate 700 'a')⟩)).length = 971 ∧
      (Demo.base64URLEncode
        (Demo.stringifyEvent ⟨"custom", String.mk (List.replicate 700 'b')⟩)).length = 968 ∧
      encodedLength Demo.pingPlatform Demo.longEvents = 1943 ∧
      (pixelUrl Demo.pingPlatform "env" "https://events.launchdarkly.com"
        Demo.longEvents).length = 1987 ∧
      ∀ chunker : Int → List Demo.Event → List (List Demo.Event),
        chunker 1969 Demo.longEvents = [Demo.longEvents] →
          (sendEventsWith Demo.pingPlatform "env" chunker Demo.longEvents
              "https://events.launchdarkly.com" World.init).2.pings =
            [pixelUrl Demo.pingPlatform "env" "https://events.launchdarkly.com"
              Demo.longEvents] := by
  have hurl : "https://events.launchdarkly.com".length = 31 := by decide
  have henv : "env".length = 3 := rfl
  have hlimit : MAX_URL_LENGTH - ("https://events.launchdarkly.com".length : Int) = 1969 := by
    rw [hurl]
    decide
  refine ⟨hlimit, rfl, Demo.encodedLength_each_longEvent.1,
    Demo.encodedLength_each_longEvent.2, Demo.encodedLength_longEvents, ?_, ?_⟩
  · rw [pixelUrl_length, imageUrlPath_length, Demo.encodedLength_longEvents, hurl, henv]
  · intro chunker hchunk
    rw [sendEventsWith_ping Demo.pingPlatform "env" chunker (Demo.scripted []) rfl rfl, hlimit,
      hchunk]
    rfl

/-- C9, amended: when the platform has a transport and POST is unavailable, `sendEvents` issues
no request, asks the partition (whatever function it is) for chunks within `2000 - url.length`
characters, and pings, for every chunk the partition returns, the url followed by the image
path of the environment, `?d=` and the encoded chunk.  That pixel URL is `url.length +
environmentId.length + 10` characters longer than the encoded chunk; so a chunk whose encoding
is within the `2000 - url.length` characters asked for yields a pixel URL of at most `2000 +
environmentId.length + 10` characters. -/
theorem sendEventsWith_pixelUrl_bound (chunker : Int → List Event → List (List Event))
    (transport : List Request → Request → Outcome)
    (hhttp : platform.httpRequest = some transport) (hpost : platform.httpAllowsPost = false)
    (events : List Event) (url : String) (w : World) :
    (sendEventsWith platform environmentId chunker events url w).2.requests = w.requests ∧
      (sendEventsWith platform environmentId chunker events url w).2.pings =
        w.pings ++
          (if platform.httpFallbackPing = true then
            (chunker (MAX_URL_LENGTH - (url.length : Int)) events).map
              (fun chunk => url ++ ("/a/" ++ environmentId ++ ".gif") ++ "?d="
                ++ platform.base64URLEncode (platform.stringify chunk))
          else []) ∧
      ∀ chunk ∈ chunker (MAX_URL_LENGTH - (url.length : Int)) events,
        (pixelUrl platform environmentId url chunk).length =
            url.length + environmentId.length + 10 + encodedLength platform chunk ∧
          ((encodedLength platform chunk : Int) ≤ MAX_URL_LENGTH - (url.length : Int) →
            ((pixelUrl platform environmentId url chunk).length : Int) ≤
              MAX_URL_LENGTH + ((environmentId.length + 10 : Nat) : Int)) := by
  have hlen : ∀ chunk : List Event,
      (pixelUrl platform environmentId url chunk).length =
        url.length + environmentId.length + 10 + encodedLength platform chunk := by
    intro chunk
    rw [pixelUrl_length, imageUrlPath_length]
    omega
  refine ⟨?_, ?_, ?_⟩
  · rw [sendEventsWith_ping platform environmentId chunker transport hhttp hpost]
  · rw [sendEventsWith_ping platform environmentId chunker transport hhttp hpost]
    rfl
  · intro chunk _
    refine ⟨hlen chunk, fun hfit => ?_⟩
    rw [hlen chunk]
    push_cast
    omega

/-- C9, amended, on the two long events and the partition modelled from the spec: `sendEvents`
pings one pixel URL, of 1987 characters, which is within 2000 + 3 + 10. -/
theorem sendEventsWith_pixelUrl_bound_witness :
    Demo.pingPlatform.httpRequest = some (Demo.scripted []) ∧
      Demo.pingPlatform.httpAllowsPost = false ∧
      (sendEvents Demo.pingPlatform "env" Demo.longEvents "https://events.launchdarkly.com"
          World.init).2.pings =
        [pixelUrl Demo.pingPlatform "env" "https://events.launchdarkly.com" Demo.longEvents] ∧
      ((pixelUrl Demo.pingPlatform "env" "https://events.launchdarkly.com"
          Demo.longEvents).length : Int) ≤ MAX_URL_LENGTH + (("env".length + 10 : Nat) : Int) := by
  have hchunks := Demo.chunksFor_longEvents
  simp only [chunksFor, Bool.false_eq_true, if_false] at hchunks
  have h := sendEventsWith_pixelUrl_bound Demo.pingPlatform "env"
    (chunkUserEventsForUrl Demo.pingPlatform) (Demo.scripted []) rfl rfl Demo.longEvents
    "https://events.launchdarkly.com" World.init
  rw [hchunks] at h
  refine ⟨rfl, rfl, ?_, ?_⟩
  · rw [sendEvents_eq_sendEventsWith, h.2.1]
    rfl
  · refine (h.2.2 Demo.longEvents (List.mem_singleton.mpr rfl)).2 ?_
    rw [Demo.encodedLength_longEvents]
    have hurl : "https://events.launchdarkly.com".length = 31 := by decide
    rw [hurl]
    decide

end ChunkClaims

end EventSender

/-! ## Transient keys: one record -/

namespace TransientContextProcessor

section SingleProofs

variable (uuidv1 : Nat → String)

/-- For an absent kind transience is the `anonymous` flag; for a kind name it is the
`transient` flag, provided the name is not empty. -/
theorem isTransient_eq (kind : Kind) (record : Record) :
    isTransient kind record =
      ((transienceFlag kind record).truthy && (kind.isAbsent || kind.truthy)) := by
  cases kind with
  | undefined => simp [isTransient, transienceFlag, Kind.isAbsent, Kind.truthy]
  | null => simp [isTransient, transienceFlag, Kind.isAbsent, Kind.truthy]
  | name s =>
    simp only [isTransient, transienceFlag, Kind.isAbsent, Kind.truthy, Bool.false_and,
      Bool.false_or, Bool.false_eq_true, if_false]
    exact Bool.and_comm _ _

/-- A record with a key resolves with the key coerced to a string; the storage is untouched. -/
theorem processSingleKindContext_present (kind : Kind) (record : Record) (st : Store)
    (hkey : record.key.isPresent = true) :
    processSingleKindContext uuidv1 kind record st =
      (.resolved { record with key := .str record.key.toJsString }, st) := by
  simp [processSingleKindContext, hkey]

/-- A key-less record that is not transient is rejected; the storage is untouched. -/
theorem processSingleKindContext_invalid (kind : Kind) (record : Record) (st : Store)
    (hkey : record.key.isPresent = false) (htr : isTransient kind record = false) :
    processSingleKindContext uuidv1 kind record st = (.rejected .invalidUser, st) := by
  simp [processSingleKindContext, hkey, htr]

/-- A key-less transient record whose kind has a cached identifier is given that identifier. -/
theorem processSingleKindContext_hit (kind : Kind) (record : Record) (st : Store)
    (cachedId : String) (hkey : record.key.isPresent = false)
    (htr : isTransient kind record = true)
    (hcache : st.storage (getContextKeyIdString kind) = some cachedId) (hne : cachedId ≠ "") :
    processSingleKindContext uuidv1 kind record st =
      (.resolved { record with key := .str cachedId }, st.afterHit kind) := by
  simp [processSingleKindContext, hkey, htr, getCachedContextKey, Store.get, hcache, hne,
    Store.afterHit]

/-- A key-less transient record whose kind has no cached identifier (or an empty one) is given
a fresh identifier, which is written under the storage key of the kind. -/
theorem processSingleKindContext_miss (kind : Kind) (record : Record) (st : Store)
    (hkey : record.key.isPresent = false) (htr : isTransient kind record = true)
    (hcache : st.storage (getContextKeyIdString kind) = none ∨
      st.storage (getContextKeyIdString kind) = some "") :
    processSingleKindContext uuidv1 kind record st =
      (.resolved { record with key := .str (uuidv1 st.generated) },
        st.afterMiss kind (uuidv1 st.generated)) := by
  rcases hcache with hcache | hcache <;>
    simp [processSingleKindContext, hkey, htr, getCachedContextKey, Store.get, hcache,
      Store.afterMiss, setCachedContextKey, Store.set]

/-- `processContext` on a single-kind context is `processSingleKindContext` on its record. -/
theorem processContext_single (kind : Kind) (notMulti : kind ≠ Kind.name "multi")
    (record : Record) (st : Store) :
    processContext uuidv1 (some (.single kind notMulti record)) st =
      match processSingleKindContext uuidv1 kind record st with
      | (.resolved processed, st1) => (.resolved (.single kind notMulti processed), st1)
      | (.rejected error, st1) => (.rejected error, st1)
      | (.threw, st1) => (.threw, st1) := by
  simp only [processContext, clone, Context.kind]

/-- A key-less transient record resolves with a key: the cached identifier of its kind when
there is a non-empty one, a fresh identifier otherwise. -/
theorem processSingleKindContext_transient (kind : Kind) (record : Record) (st : Store)
    (hkey : record.key.isPresent = false) (htr : isTransient kind record = true) :
    (∃ cachedId, cachedId ≠ "" ∧ st.storage (getContextKeyIdString kind) = some cachedId ∧
        processSingleKindContext uuidv1 kind record st =
          (.resolved { record with key := .str cachedId }, st.afterHit kind)) ∨
      ((st.storage (getContextKeyIdString kind) = none ∨
          st.storage (getContextKeyIdString kind) = some "") ∧
        processSingleKindContext uuidv1 kind record st =
          (.resolved { record with key := .str (uuidv1 st.generated) },
            st.afterMiss kind (uuidv1 st.generated))) := by
  cases hc : st.storage (getContextKeyIdString kind) with
  | none =>
    exact Or.inr ⟨Or.inl rfl,
      processSingleKindContext_miss uuidv1 kind record st hkey htr (Or.inl hc)⟩
  | some cachedId =>
    by_cases hne : cachedId = ""
    · subst hne
      exact Or.inr ⟨Or.inr rfl,
        processSingleKindContext_miss uuidv1 kind record st hkey htr (Or.inr hc)⟩
    · exact Or.inl ⟨cachedId, hne, rfl,
        processSingleKindContext_hit uuidv1 kind record st cachedId hkey htr hc hne⟩

/-- Two resolutions of a key-less transient single-kind context, one after the other on the
same storage: both resolve with the same non-empty key, the first generates at most one
identifier, and the second only reads the storage. -/
theorem processContext_transient_twice (hgen : ∀ n, uuidv1 n ≠ "") (kind : Kind)
    (notMulti : kind ≠ Kind.name "multi") (record : Record) (st : Store)
    (hkey : record.key.isPresent = false) (htr : isTransient kind record = true) :
    ∃ key st1, key ≠ "" ∧
      processContext uuidv1 (some (.single kind notMulti record)) st =
        (.resolved (.single kind notMulti { record with key := .str key }), st1) ∧
      processContext uuidv1 (some (.single kind notMulti record)) st1 =
        (.resolved (.single kind notMulti { record with key := .str key }),
          st1.afterHit kind) ∧
      st1.storage (getContextKeyIdString kind) = some key ∧
      (st1 = st.afterHit kind ∨ st1 = st.afterMiss kind key) := by
  rcases processSingleKindContext_transient uuidv1 kind record st hkey htr with
    ⟨cachedId, hne, hcache, hres⟩ | ⟨_, hres⟩
  · refine ⟨cachedId, st.afterHit kind, hne, ?_, ?_, hcache, Or.inl rfl⟩
    · rw [processContext_single, hres]
    · rw [processContext_single,
        processSingleKindContext_hit uuidv1 kind record (st.afterHit kind) cachedId hkey htr
          hcache hne]
  · have hstored : (st.afterMiss kind (uuidv1 st.generated)).storage
        (getContextKeyIdString kind) = some (uuidv1 st.generated) := by
      simp [Store.afterMiss]
    refine ⟨uuidv1 st.generated, st.afterMiss kind (uuidv1 st.generated), hgen _, ?_, ?_,
      hstored, Or.inr rfl⟩
    · rw [processContext_single, hres]
    · rw [processContext_single,
        processSingleKindContext_hit uuidv1 kind record _ (uuidv1 st.generated) hkey htr
          hstored (hgen _)]

end SingleProofs

end TransientContextProcessor

/-! ## Transient keys: storage keys -/

namespace TransientContextProcessor

/-- The storage key of an explicit kind is not the key of the legacy kind. -/
theorem contextKey_ne_ldUserIdKey (s : String) : "ld:$contextKey:" ++ s ≠ ldUserIdKey := by
  intro h
  have hd := congrArg String.data h
  have h1 : "ld:$contextKey:".data =
      ['l', 'd', ':', '$', 'c', 'o', 'n', 't', 'e', 'x', 't', 'K', 'e', 'y', ':'] := rfl
  have h2 : ldUserIdKey.data =
      ['l', 'd', ':', '$', 'a', 'n', 'o', 'n', 'U', 's', 'e', 'r', 'I', 'd'] := rfl
  rw [String.data_append, h1, h2] at hd
  simp at hd

/-- The storage keys of two explicit kinds are equal only when the kinds are. -/
theorem contextKey_injective (s t : String) (h : "ld:$contextKey:" ++ s = "ld:$contextKey:" ++ t) :
    s = t := by
  have hd := congrArg String.data h
  rw [String.data_append, String.data_append] at hd
  exact String.ext (List.append_cancel_left hd)

/-- Kinds with the same storage key are the same up to the legacy kinds. -/
theorem same_of_getContextKeyIdString_eq (a b : Kind)
    (h : getContextKeyIdString a = getContextKeyIdString b) : Kind.same a b := by
  cases a with
  | undefined =>
    cases b with
    | undefined => exact Or.inl rfl
    | null => exact Or.inr ⟨rfl, rfl⟩
    | name t =>
      by_cases ht : t = "user"
      · exact Or.inr ⟨rfl, by simp [Kind.isLegacy, ht]⟩
      · simp only [getContextKeyIdString, ht, if_false] at h
        exact absurd h.symm (contextKey_ne_ldUserIdKey t)
  | null =>
    cases b with
    | undefined => exact Or.inr ⟨rfl, rfl⟩
    | null => exact Or.inl rfl
    | name t =>
      by_cases ht : t = "user"
      · exact Or.inr ⟨rfl, by simp [Kind.isLegacy, ht]⟩
      · simp only [getContextKeyIdString, ht, if_false] at h
        exact absurd h.symm (contextKey_ne_ldUserIdKey t)
  | name s =>
    by_cases hs : s = "user"
    · cases b with
      | undefined => exact Or.inr ⟨by simp [Kind.isLegacy, hs], rfl⟩
      | null => exact Or.inr ⟨by simp [Kind.isLegacy, hs], rfl⟩
      | name t =>
        by_cases ht : t = "user"
        · exact Or.inl (by rw [hs, ht])
        · simp only [getContextKeyIdString, hs, ht, if_true, if_false] at h
          exact absurd h.symm (contextKey_ne_ldUserIdKey t)
    · cases b with
      | undefined =>
        simp only [getContextKeyIdString, hs, if_false] at h
        exact absurd h (contextKey_ne_ldUserIdKey s)
      | null =>
        simp only [getContextKeyIdString, hs, if_false] at h
        exact absurd h (contextKey_ne_ldUserIdKey s)
      | name t =>
        by_cases ht : t = "user"
        · simp only [getContextKeyIdString, hs, ht, if_true, if_false] at h
          exact absurd h (contextKey_ne_ldUserIdKey s)
        · simp only [getContextKeyIdString, hs, ht, if_false] at h
          exact Or.inl (by rw [contextKey_injective s t h])

/-- A resolution for a kind reads and writes the storage key of that kind only. -/
theorem processSingleKindContext_frame (uuidv1 : Nat → String) (kind : Kind) (record : Record)
    (st : Store) :
    ∃ reads writes,
      (processSingleKindContext uuidv1 kind record st).2.reads = st.reads ++ reads ∧
      (processSingleKindContext uuidv1 kind record st).2.writes = st.writes ++ writes ∧
      (∀ key ∈ reads, key = getContextKeyIdString kind) ∧
      (∀ entry ∈ writes, entry.1 = getContextKeyIdString kind) ∧
      ∀ key, key ≠ getContextKeyIdString kind →
        (processSingleKindContext uuidv1 kind record st).2.storage key = st.storage key := by
  cases hkey : record.key.isPresent with
  | true =>
    rw [processSingleKindContext_present uuidv1 kind record st hkey]
    exact ⟨[], [], by simp, by simp, by simp, by simp, fun _ _ => rfl⟩
  | false =>
    cases htr : isTransient kind record with
    | false =>
      rw [processSingleKindContext_invalid uuidv1 kind record st hkey htr]
      exact ⟨[], [], by simp, by simp, by simp, by simp, fun _ _ => rfl⟩
    | true =>
      rcases processSingleKindContext_transient uuidv1 kind record st hkey htr with
        ⟨cachedId, _, _, hres⟩ | ⟨_, hres⟩
      · rw [hres]
        exact ⟨[getContextKeyIdString kind], [], rfl, by simp [Store.afterHit], by simp,
          by simp, fun _ _ => rfl⟩
      · rw [hres]
        refine ⟨[getContextKeyIdString kind],
          [(getContextKeyIdString kind, uuidv1 st.generated)], rfl, rfl, by simp, by simp, ?_⟩
        intro key hne
        simp [Store.afterMiss, hne]

end TransientContextProcessor

/-! ## Transient keys: the claims about one record -/

namespace Demo

/-- The identifiers of the generator are not empty. -/
theorem uuidv1_ne_empty (n : Nat) : uuidv1 n ≠ "" := by
  match n with
  | 0 => decide
  | 1 => decide
  | n + 2 => simp [uuidv1]

end Demo

namespace TransientContextProcessor

section SingleClaims

variable (uuidv1 : Nat → String)

/-- The transience of a key-less record in terms of its flags. -/
theorem isTransient_of_flag (kind : Kind) (record : Record)
    (hflag : (kind.isAbsent = true ∧ record.anonymous.truthy = true) ∨
      ∃ k, kind = Kind.name k ∧ k ≠ "" ∧ record.transient.truthy = true) :
    isTransient kind record = true := by
  rcases hflag with ⟨habs, hanon⟩ | ⟨k, hk, hne, htr⟩
  · simp [isTransient, habs, hanon]
  · subst hk
    simp [isTransient, Kind.truthy, hne, htr]

/-- C7: a single-kind context whose `key` is present, whatever its kind and its `anonymous` and
`transient` flags, resolves with the same record except that `key` is its string coercion, and
the storage state is returned as it was: nothing was read, written or generated. -/
theorem processContext_key_present_short_circuits (kind : Kind)
    (notMulti : kind ≠ Kind.name "multi") (record : Record) (st : Store)
    (hkey : record.key.isPresent = true) :
    processContext uuidv1 (some (.single kind notMulti record)) st =
      (.resolved (.single kind notMulti
          ⟨.str record.key.toJsString, record.anonymous, record.transient, record.attributes⟩),
        st) := by
  rw [processContext_single, processSingleKindContext_present uuidv1 kind record st hkey]

/-- C7 on `{key: true, anonymous: true, transient: true, name: "Ann"}` of kind `org`. -/
theorem processContext_key_present_short_circuits_witness :
    Kind.name "org" ≠ Kind.name "multi" ∧
      (⟨.bool true, .bool true, .bool true, [("name", .str "Ann")]⟩ : Record).key.isPresent
        = true ∧
      processContext Demo.uuidv1
          (some (.single (.name "org") (by decide)
            ⟨.bool true, .bool true, .bool true, [("name", .str "Ann")]⟩))
          Store.empty =
        (.resolved (.single (.name "org") (by decide)
            ⟨.str "true", .bool true, .bool true, [("name", .str "Ann")]⟩),
          Store.empty) :=
  ⟨by decide, rfl,
    processContext_key_present_short_circuits Demo.uuidv1 (.name "org") (by decide)
      ⟨.bool true, .bool true, .bool true, [("name", .str "Ann")]⟩ Store.empty rfl⟩

/-- C10: `getContextKeyIdString` maps `undefined`, `null` and `"user"` to `'ld:$anonUserId'` and
every other kind `k` to `'ld:$contextKey:' + k`; kinds that differ (with `undefined`, `null` and
`"user"` identified) have different storage keys; and a resolution for one kind neither reads
nor writes the storage key of a different kind, whose cached identifier stays as it was. -/
theorem getContextKeyIdString_separates_kinds :
    getContextKeyIdString .undefined = "ld:$anonUserId" ∧
      getContextKeyIdString .null = "ld:$anonUserId" ∧
      getContextKeyIdString (.name "user") = "ld:$anonUserId" ∧
      (∀ k, k ≠ "user" → getContextKeyIdString (.name k) = "ld:$contextKey:" ++ k) ∧
      (∀ a b, ¬ Kind.same a b → getContextKeyIdString a ≠ getContextKeyIdString b) ∧
      ∀ (uuidv1 : Nat → String) (a b : Kind) (record : Record) (st : Store),
        ¬ Kind.same a b →
          ∃ reads writes,
            (processSingleKindContext uuidv1 a record st).2.reads = st.reads ++ reads ∧
            (processSingleKindContext uuidv1 a record st).2.writes = st.writes ++ writes ∧
            getContextKeyIdString b ∉ reads ∧
            getContextKeyIdString b ∉ writes.map Prod.fst ∧
            (processSingleKindContext uuidv1 a record st).2.storage (getContextKeyIdString b) =
              st.storage (getContextKeyIdString b) := by
  refine ⟨rfl, rfl, rfl, ?_, ?_, ?_⟩
  · intro k hk
    simp [getContextKeyIdString, hk]
  · intro a b hne heq
    exact hne (same_of_getContextKeyIdString_eq a b heq)
  · intro uuidv1 a b record st hne
    have hkeys : getContextKeyIdString b ≠ getContextKeyIdString a :=
      fun heq => hne (same_of_getContextKeyIdString_eq a b heq.symm)
    obtain ⟨reads, writes, hr, hw, hreads, hwrites, hstorage⟩ :=
      processSingleKindContext_frame uuidv1 a record st
    refine ⟨reads, writes, hr, hw, ?_, ?_, hstorage _ hkeys⟩
    · intro hmem
      exact hkeys (hreads _ hmem)
    · intro hmem
      obtain ⟨entry, hentry, hfst⟩ := List.mem_map.mp hmem
      exact hkeys (hfst ▸ hwrites entry hentry)

/-- C2 as stated fails: the key-less context `{kind: "user", anonymous: true}` is rejected with
the invalid-context error, and nothing is generated or stored. -/
theorem processContext_kind_user_anonymous_rejects :
    processContext Demo.uuidv1
        (some (.single (.name "user") (by decide) ⟨.undefined, .bool true, .undefined, []⟩))
        Store.empty =
      (.rejected .invalidUser, Store.empty) := by
  rw [processContext_single,
    processSingleKindContext_invalid Demo.uuidv1 (.name "user")
      ⟨.undefined, .bool true, .undefined, []⟩ Store.empty rfl rfl]

/-- C2, amended: with a generator of non-empty identifiers, a key-less context without a kind
(`undefined` or `null`) whose `anonymous` flag is set, and a key-less context of kind `"user"`
whose `transient` flag is set, resolve with a non-empty key, and a second resolution on the
storage left by the first resolves with the same key; a key-less context of kind `"user"` whose
`transient` flag is not set is rejected with the invalid-context error, whatever its `anonymous`
flag. -/
theorem processContext_legacy_anonymous_user_transient (hgen : ∀ n, uuidv1 n ≠ "")
    (record : Record) (st : Store) (hkey : record.key.isPresent = false) :
    (record.anonymous.truthy = true →
      ∀ (kind : Kind) (notMulti : kind ≠ Kind.name "multi"), kind.isAbsent = true →
        ∃ key st1 st2, key ≠ "" ∧
          processContext uuidv1 (some (.single kind notMulti record)) st =
            (.resolved (.single kind notMulti { record with key := .str key }), st1) ∧
          processContext uuidv1 (some (.single kind notMulti record)) st1 =
            (.resolved (.single kind notMulti { record with key := .str key }), st2)) ∧
      (record.transient.truthy = true →
        ∃ key st1 st2, key ≠ "" ∧
          processContext uuidv1 (some (.single (.name "user") (by decide) record)) st =
            (.resolved (.single (.name "user") (by decide) { record with key := .str key }),
              st1) ∧
          processContext uuidv1 (some (.single (.name "user") (by decide) record)) st1 =
            (.resolved (.single (.name "user") (by decide) { record with key := .str key }),
              st2)) ∧
      (record.transient.truthy = false →
        processContext uuidv1 (some (.single (.name "user") (by decide) record)) st =
          (.rejected .invalidUser, st)) := by
  refine ⟨?_, ?_, ?_⟩
  · intro hanon kind notMulti habs
    obtain ⟨key, st1, hne, h1, h2, _, _⟩ :=
      processContext_transient_twice uuidv1 hgen kind notMulti record st hkey
        (isTransient_of_flag kind record (Or.inl ⟨habs, hanon⟩))
    exact ⟨key, st1, _, hne, h1, h2⟩
  · intro htr
    obtain ⟨key, st1, hne, h1, h2, _, _⟩ :=
      processContext_transient_twice uuidv1 hgen (.name "user") (by decide) record st hkey
        (isTransient_of_flag _ record (Or.inr ⟨"user", rfl, by decide, htr⟩))
    exact ⟨key, st1, _, hne, h1, h2⟩
  · intro htr
    rw [processContext_single, processSingleKindContext_invalid _ _ _ _ hkey]
    simp [isTransient, Kind.isAbsent, htr]

/-- C2, amended, on `{kind: "user", transient: true}` and an empty storage. -/
theorem processContext_legacy_anonymous_user_transient_witness :
    (∀ n, Demo.uuidv1 n ≠ "") ∧
      (⟨.undefined, .undefined, .bool true, []⟩ : Record).key.isPresent = false ∧
      ∃ key st1 st2, key ≠ "" ∧
        processContext Demo.uuidv1
            (some (.single (.name "user") (by decide) ⟨.undefined, .undefined, .bool true, []⟩))
            Store.empty =
          (.resolved (.single (.name "user") (by decide)
              ⟨.str key, .undefined, .bool true, []⟩), st1) ∧
        processContext Demo.uuidv1
            (some (.single (.name "user") (by decide) ⟨.undefined, .undefined, .bool true, []⟩))
            st1 =
          (.resolved (.single (.name "user") (by decide)
              ⟨.str key, .undefined, .bool true, []⟩), st2) :=
  ⟨Demo.uuidv1_ne_empty, rfl,
    (processContext_legacy_anonymous_user_transient Demo.uuidv1 Demo.uuidv1_ne_empty
      ⟨.undefined, .undefined, .bool true, []⟩ Store.empty rfl).2.1 rfl⟩

end SingleClaims

end TransientContextProcessor

/-! ## Transient keys: the records of a multi-kind context -/

namespace TransientContextProcessor

section MultiProofs

variable (uuidv1 : Nat → String)

/-- What `processSingleKindContext` resolves with is the record processed. -/
theorem processed_of_resolved (hgen : ∀ n, uuidv1 n ≠ "") (kind : Kind) (record : Record)
    (st : Store) (processed : Record) (st1 : Store)
    (h : processSingleKindContext uuidv1 kind record st = (.resolved processed, st1)) :
    record.Processed processed := by
  cases hkey : record.key.isPresent with
  | true =>
    rw [processSingleKindContext_present uuidv1 kind record st hkey] at h
    simp only [Prod.mk.injEq, Completion.resolved.injEq] at h
    exact ⟨record.key.toJsString, h.1.symm, fun _ => rfl, fun hc => by simp [hkey] at hc⟩
  | false =>
    cases htr : isTransient kind record with
    | false =>
      rw [processSingleKindContext_invalid uuidv1 kind record st hkey htr] at h
      simp at h
    | true =>
      rcases processSingleKindContext_transient uuidv1 kind record st hkey htr with
        ⟨cachedId, hne, _, hres⟩ | ⟨_, hres⟩
      · rw [hres] at h
        simp only [Prod.mk.injEq, Completion.resolved.injEq] at h
        exact ⟨cachedId, h.1.symm, fun hc => by simp [hkey] at hc, fun _ => hne⟩
      · rw [hres] at h
        simp only [Prod.mk.injEq, Completion.resolved.injEq] at h
        exact ⟨uuidv1 st.generated, h.1.symm, fun hc => by simp [hkey] at hc, fun _ => hgen _⟩

/-- Processing a processed record changes nothing. -/
theorem Record.Processed.again {record processed again : Record}
    (h1 : record.Processed processed) (h2 : processed.Processed again) : again = processed := by
  obtain ⟨key, hp, _, _⟩ := h1
  obtain ⟨key2, hp2, hpresent, _⟩ := h2
  subst hp
  have : key2 = key := hpresent rfl
  subst this
  exact hp2

/-- A processed record has a string key, non-empty unless it is the coercion of the key the
record had. -/
theorem Record.Processed.key_eq {record processed : Record} (h : record.Processed processed) :
    ∃ key, processed.key = .str key ∧ processed.anonymous = record.anonymous ∧
      processed.transient = record.transient ∧ processed.attributes = record.attributes ∧
      (key = "" → record.key.isPresent = true ∧ record.key.toJsString = "") := by
  obtain ⟨key, hp, hpresent, habsent⟩ := h
  subst hp
  refine ⟨key, rfl, rfl, rfl, rfl, ?_⟩
  intro hempty
  cases hkey : record.key.isPresent with
  | true => exact ⟨rfl, by rw [← hpresent hkey, hempty]⟩
  | false => exact absurd hempty (habsent hkey)

/-- Reading back the property that was just set. -/
theorem getRecord_setRecord_same (kind : String) (value : Record)
    (records : List (String × Record)) (h : (getRecord kind records).isSome = true) :
    getRecord kind (setRecord kind value records) = some value := by
  induction records with
  | nil => simp [getRecord] at h
  | cons entry rest ih =>
    obtain ⟨k, record⟩ := entry
    by_cases hk : k = kind
    · simp [getRecord, setRecord, hk]
    · simp only [getRecord, hk, if_false] at h
      simp [getRecord, setRecord, hk, ih h]

/-- Setting one property leaves the others as they were. -/
theorem getRecord_setRecord_ne (kind other : String) (value : Record)
    (records : List (String × Record)) (h : other ≠ kind) :
    getRecord other (setRecord kind value records) = getRecord other records := by
  induction records with
  | nil => simp [getRecord, setRecord]
  | cons entry rest ih =>
    obtain ⟨k, record⟩ := entry
    have h' : ¬ kind = other := fun hc => h hc.symm
    by_cases hk : k = kind
    · subst hk
      simp [getRecord, setRecord, h']
    · by_cases hko : k = other
      · subst hko
        simp [getRecord, setRecord, h]
      · simp [getRecord, setRecord, hk, hko, ih]

/-- Setting a property keeps the names of the properties. -/
theorem map_fst_setRecord (kind : String) (value : Record) (records : List (String × Record)) :
    (setRecord kind value records).map Prod.fst = records.map Prod.fst := by
  induction records with
  | nil => rfl
  | cons entry rest ih =>
    obtain ⟨k, record⟩ := entry
    by_cases hk : k = kind
    · simp [setRecord, hk]
    · simp [setRecord, hk, ih]

/-- A property that is read is an entry of the object. -/
theorem mem_of_getRecord (kind : String) (record : Record) (records : List (String × Record))
    (h : getRecord kind records = some record) : (kind, record) ∈ records := by
  induction records with
  | nil => simp [getRecord] at h
  | cons entry rest ih =>
    obtain ⟨k, r⟩ := entry
    by_cases hk : k = kind
    · simp only [getRecord, hk, if_true, Option.some.injEq] at h
      simp [hk, h]
    · simp only [getRecord, hk, if_false] at h
      exact List.mem_cons_of_mem _ (ih h)

/-- With distinct names, every entry of the object is what reading its name gives. -/
theorem getRecord_of_mem (kind : String) (record : Record) (records : List (String × Record))
    (hnodup : (records.map Prod.fst).Nodup) (h : (kind, record) ∈ records) :
    getRecord kind records = some record := by
  induction records with
  | nil => simp at h
  | cons entry rest ih =>
    obtain ⟨k, r⟩ := entry
    simp only [List.map_cons, List.nodup_cons] at hnodup
    rcases List.mem_cons.mp h with heq | hmem
    · simp only [Prod.mk.injEq] at heq
      simp [getRecord, heq.1, heq.2]
    · have hk : k ≠ kind := by
        intro hc
        apply hnodup.1
        rw [hc]
        exact List.mem_map.mpr ⟨(kind, record), hmem, rfl⟩
      simp [getRecord, hk, ih hnodup.2 hmem]

/-- The property of a listed name can be read. -/
theorem getRecord_isSome_of_mem (kind : String) (records : List (String × Record))
    (h : kind ∈ records.map Prod.fst) : (getRecord kind records).isSome = true := by
  induction records with
  | nil => simp at h
  | cons entry rest ih =>
    obtain ⟨k, r⟩ := entry
    by_cases hk : k = kind
    · simp [getRecord, hk]
    · simp only [List.map_cons, List.mem_cons] at h
      rcases h with heq | hmem
      · exact absurd heq.symm hk
      · simp [getRecord, hk, ih hmem]

end MultiProofs

end TransientContextProcessor

namespace TransientContextProcessor

section KindsProofs

variable (uuidv1 : Nat → String)

/-- Nothing evolves into itself. -/
theorem Evolved.refl (records : List (String × Record)) : Evolved records records :=
  fun _ => Or.inl rfl

/-- Evolution composes. -/
theorem Evolved.trans {a b c : List (String × Record)} (hab : Evolved a b) (hbc : Evolved b c) :
    Evolved a c := by
  intro kind
  rcases hbc kind with hsame | ⟨r', p', hr', hp', hproc'⟩
  · rcases hab kind with hsame2 | ⟨r, p, hr, hp, hproc⟩
    · exact Or.inl (hsame.trans hsame2)
    · exact Or.inr ⟨r, p, hr, hsame.trans hp, hproc⟩
  · rcases hab kind with hsame2 | ⟨r, p, hr, hp, hproc⟩
    · exact Or.inr ⟨r', p', hsame2 ▸ hr', hp', hproc'⟩
    · have hpr : r' = p := Option.some.inj (hr'.symm.trans hp)
      rw [hpr] at hproc'
      have hag := hproc.again hproc'
      rw [hag] at hp'
      exact Or.inr ⟨r, p, hr, hp', hproc⟩

/-- Replacing a property by its processed record is an evolution. -/
theorem Evolved.setRecord (kind : String) (r p : Record) (records : List (String × Record))
    (hr : getRecord kind records = some r) (hproc : r.Processed p) :
    Evolved records (setRecord kind p records) := by
  intro other
  by_cases h : other = kind
  · subst h
    exact Or.inr ⟨r, p, hr, getRecord_setRecord_same other p records (by simp [hr]), hproc⟩
  · exact Or.inl (getRecord_setRecord_ne kind other p records h)

/-- One step of `processKinds` on a kind whose record resolves. -/
theorem processKinds_cons_resolved (kind : String) (rest : List String)
    (records : List (String × Record)) (st : Store) (record processed : Record) (st1 : Store)
    (hr : getRecord kind records = some record)
    (hres : processSingleKindContext uuidv1 (.name kind) record st = (.resolved processed, st1)) :
    processKinds uuidv1 (kind :: rest) records st =
      (.resolved () :: (processKinds uuidv1 rest (setRecord kind processed records) st1).1,
        (processKinds uuidv1 rest (setRecord kind processed records) st1).2) := by
  simp only [processKinds, hr, hres]

/-- One step of `processKinds` on a kind whose record is rejected. -/
theorem processKinds_cons_rejected (kind : String) (rest : List String)
    (records : List (String × Record)) (st : Store) (record : Record)
    (error : LDInvalidUserError) (st1 : Store)
    (hr : getRecord kind records = some record)
    (hres : processSingleKindContext uuidv1 (.name kind) record st = (.rejected error, st1)) :
    processKinds uuidv1 (kind :: rest) records st =
      (.rejected error :: (processKinds uuidv1 rest records st1).1,
        (processKinds uuidv1 rest records st1).2) := by
  simp only [processKinds, hr, hres]

/-- `processKinds` keeps the names of the properties, and its records are an evolution of the
ones it started from. -/
theorem processKinds_evolved (hgen : ∀ n, uuidv1 n ≠ "") (kinds : List String)
    (records : List (String × Record)) (st : Store) :
    (processKinds uuidv1 kinds records st).2.1.map Prod.fst = records.map Prod.fst ∧
      Evolved records (processKinds uuidv1 kinds records st).2.1 := by
  induction kinds generalizing records st with
  | nil => exact ⟨rfl, Evolved.refl records⟩
  | cons kind rest ih =>
    cases hr : getRecord kind records with
    | none =>
      simp only [processKinds, hr]
      exact ⟨trivial, Evolved.refl records⟩
    | some record =>
      rcases hres : processSingleKindContext uuidv1 (.name kind) record st with ⟨settled, st1⟩
      cases settled with
      | threw =>
        simp only [processKinds, hr, hres]
        exact ⟨trivial, Evolved.refl records⟩
      | rejected error =>
        rw [processKinds_cons_rejected uuidv1 kind rest records st record error st1 hr hres]
        exact ih records st1
      | resolved processed =>
        rw [processKinds_cons_resolved uuidv1 kind rest records st record processed st1 hr hres]
        have hproc := processed_of_resolved uuidv1 hgen _ record st processed st1 hres
        obtain ⟨hnames, hev⟩ := ih (setRecord kind processed records) st1
        exact ⟨hnames.trans (map_fst_setRecord kind processed records),
          (Evolved.setRecord kind record processed records hr hproc).trans hev⟩

/-- A property that was processed stays processed as the records evolve. -/
theorem ProcessedAt.evolve {a b c : List (String × Record)} {kind : String}
    (hab : ProcessedAt a b kind) (hbc : Evolved b c) : ProcessedAt a c kind := by
  obtain ⟨r, p, hr, hp, hproc⟩ := hab
  rcases hbc kind with hsame | ⟨r', p', hr', hp', hproc'⟩
  · exact ⟨r, p, hr, hsame.trans hp, hproc⟩
  · have hpr : r' = p := Option.some.inj (hr'.symm.trans hp)
    rw [hpr] at hproc'
    have hag := hproc.again hproc'
    rw [hag] at hp'
    exact ⟨r, p, hr, hp', hproc⟩

/-- A property processed after an evolution is the original property, processed. -/
theorem ProcessedAt.of_evolved {a b c : List (String × Record)} {kind : String}
    (hab : Evolved a b) (hbc : ProcessedAt b c kind) : ProcessedAt a c kind := by
  obtain ⟨r', p', hr', hp', hproc'⟩ := hbc
  rcases hab kind with hsame | ⟨r, p, hr, hp, hproc⟩
  · exact ⟨r', p', hsame ▸ hr', hp', hproc'⟩
  · have hpr : r' = p := Option.some.inj (hr'.symm.trans hp)
    rw [hpr] at hproc'
    have hag := hproc.again hproc'
    rw [hag] at hp'
    exact ⟨r, p, hr, hp', hproc⟩

/-- When every promise of `processKinds` resolves, the property of every kind it went through
has been processed. -/
theorem processKinds_processed (hgen : ∀ n, uuidv1 n ≠ "") (kinds : List String)
    (records : List (String × Record)) (st : Store)
    (hall : ∀ result ∈ (processKinds uuidv1 kinds records st).1, result.isResolved = true) :
    ∀ kind ∈ kinds, ProcessedAt records (processKinds uuidv1 kinds records st).2.1 kind := by
  induction kinds generalizing records st with
  | nil => intro kind hmem; simp at hmem
  | cons kind rest ih =>
    cases hr : getRecord kind records with
    | none =>
      simp only [processKinds, hr] at hall
      exact absurd (hall _ (List.mem_singleton.mpr rfl)) (by simp [Completion.isResolved])
    | some record =>
      rcases hres : processSingleKindContext uuidv1 (.name kind) record st with ⟨settled, st1⟩
      cases settled with
      | threw =>
        simp only [processKinds, hr, hres] at hall
        exact absurd (hall _ (List.mem_singleton.mpr rfl)) (by simp [Completion.isResolved])
      | rejected error =>
        rw [processKinds_cons_rejected uuidv1 kind rest records st record error st1 hr hres]
          at hall
        exact absurd (hall _ (List.mem_cons_self _ _)) (by simp [Completion.isResolved])
      | resolved processed =>
        rw [processKinds_cons_resolved uuidv1 kind rest records st record processed st1 hr hres]
          at hall ⊢
        have hproc := processed_of_resolved uuidv1 hgen _ record st processed st1 hres
        have hstep := Evolved.setRecord kind record processed records hr hproc
        have hev := (processKinds_evolved uuidv1 hgen rest
          (setRecord kind processed records) st1).2
        have hrest := ih (setRecord kind processed records) st1
          (fun result hmem => hall result (List.mem_cons_of_mem _ hmem))
        intro k hk
        rcases List.mem_cons.mp hk with heq | hmem
        · subst heq
          have hat : ProcessedAt records (setRecord k processed records) k :=
            ⟨record, processed, hr,
              getRecord_setRecord_same k processed records (by simp [hr]), hproc⟩
          exact hat.evolve hev
        · exact ProcessedAt.of_evolved hstep (hrest k hmem)

/-- `Promise.all` followed by `then` resolves exactly when every promise resolves. -/
theorem allThen_resolved_iff {α : Type} (value result : α) (results : List (Promise Unit)) :
    allThen value results = .resolved result ↔
      (∀ r ∈ results, r.isResolved = true) ∧ result = value := by
  induction results with
  | nil =>
    simp only [allThen, Completion.resolved.injEq]
    exact ⟨fun h => ⟨fun _ hmem => by simp at hmem, h.symm⟩, fun h => h.2.symm⟩
  | cons head rest ih =>
    cases head with
    | resolved u => simp [allThen, ih, Completion.isResolved]
    | rejected error => simp [allThen, Completion.isResolved]
    | threw => simp [allThen, Completion.isResolved]

/-- What `processSingleKindContext` resolves with has a key. -/
theorem key_present_of_resolved (kind : Kind) (record : Record) (st : Store)
    (processed : Record) (st1 : Store)
    (h : processSingleKindContext uuidv1 kind record st = (.resolved processed, st1)) :
    processed.key.isPresent = true := by
  cases hkey : record.key.isPresent with
  | true =>
    rw [processSingleKindContext_present uuidv1 kind record st hkey] at h
    simp only [Prod.mk.injEq, Completion.resolved.injEq] at h
    rw [← h.1]
    rfl
  | false =>
    cases htr : isTransient kind record with
    | false =>
      rw [processSingleKindContext_invalid uuidv1 kind record st hkey htr] at h
      simp at h
    | true =>
      rcases processSingleKindContext_transient uuidv1 kind record st hkey htr with
        ⟨cachedId, _, _, hres⟩ | ⟨_, hres⟩ <;>
      · rw [hres] at h
        simp only [Prod.mk.injEq, Completion.resolved.injEq] at h
        rw [← h.1]
        rfl

/-- A record that is not invalid resolves. -/
theorem resolved_of_not_invalid (kind : String) (record : Record) (st : Store)
    (h : ¬ record.Invalid kind) :
    ∃ processed st1,
      processSingleKindContext uuidv1 (.name kind) record st = (.resolved processed, st1) := by
  cases hkey : record.key.isPresent with
  | true => exact ⟨_, _, processSingleKindContext_present uuidv1 _ record st hkey⟩
  | false =>
    cases htr : isTransient (.name kind) record with
    | false => exact absurd ⟨hkey, htr⟩ h
    | true =>
      rcases processSingleKindContext_transient uuidv1 (.name kind) record st hkey htr with
        ⟨cachedId, _, _, hres⟩ | ⟨_, hres⟩
      · exact ⟨_, _, hres⟩
      · exact ⟨_, _, hres⟩

/-- Setting a property keeps every property readable. -/
theorem getRecord_setRecord_isSome (kind other : String) (value : Record)
    (records : List (String × Record)) (h : (getRecord other records).isSome = true) :
    (getRecord other (setRecord kind value records)).isSome = true := by
  by_cases hk : other = kind
  · subst hk
    rw [getRecord_setRecord_same other value records h]
    rfl
  · rw [getRecord_setRecord_ne kind other value records hk]
    exact h

/-- `processKinds` rejects with the invalid-context error when the property of one of its kinds
is invalid, and resolves otherwise, provided every kind has a property. -/
theorem processKinds_rejects (value : Context)
    (kinds : List String) (records : List (String × Record)) (st : Store)
    (hsome : ∀ kind ∈ kinds, (getRecord kind records).isSome = true) :
    ((∃ kind ∈ kinds, ∃ r, getRecord kind records = some r ∧ r.Invalid kind) →
        allThen value (processKinds uuidv1 kinds records st).1 = .rejected .invalidUser) ∧
      ((¬ ∃ kind ∈ kinds, ∃ r, getRecord kind records = some r ∧ r.Invalid kind) →
        allThen value (processKinds uuidv1 kinds records st).1 = .resolved value) := by
  induction kinds generalizing records st with
  | nil => simp [processKinds, allThen]
  | cons kind rest ih =>
    have hhead := hsome kind (List.mem_cons_self _ _)
    cases hr : getRecord kind records with
    | none => simp [hr] at hhead
    | some record =>
      by_cases hinv : record.Invalid kind
      · have hres := processSingleKindContext_invalid uuidv1 (.name kind) record st
          hinv.1 hinv.2
        rw [processKinds_cons_rejected uuidv1 kind rest records st record _ st hr hres]
        refine ⟨fun _ => rfl, fun hnone => ?_⟩
        exact absurd ⟨kind, List.mem_cons_self _ _, record, hr, hinv⟩ hnone
      · obtain ⟨processed, st1, hres⟩ := resolved_of_not_invalid uuidv1 kind record st hinv
        have hproc := key_present_of_resolved uuidv1 _ record st processed st1 hres
        rw [processKinds_cons_resolved uuidv1 kind rest records st record processed st1 hr hres]
        have hsome' : ∀ k ∈ rest,
            (getRecord k (setRecord kind processed records)).isSome = true :=
          fun k hk => getRecord_setRecord_isSome kind k processed records
            (hsome k (List.mem_cons_of_mem _ hk))
        obtain ⟨hrej, hok⟩ := ih (setRecord kind processed records) st1 hsome'
        have hiff : (∃ k ∈ rest, ∃ r,
              getRecord k (setRecord kind processed records) = some r ∧ r.Invalid k) ↔
            ∃ k ∈ kind :: rest, ∃ r, getRecord k records = some r ∧ r.Invalid k := by
          constructor
          · rintro ⟨k, hk, r, hget, hbad⟩
            by_cases hkk : k = kind
            · subst hkk
              rw [getRecord_setRecord_same k processed records (by simp [hr])] at hget
              have hpr : processed = r := Option.some.inj hget
              rw [← hpr] at hbad
              exact absurd hbad.1 (by simp [hproc])
            · rw [getRecord_setRecord_ne kind k processed records hkk] at hget
              exact ⟨k, List.mem_cons_of_mem _ hk, r, hget, hbad⟩
          · rintro ⟨k, hk, r, hget, hbad⟩
            rcases List.mem_cons.mp hk with heq | hmem
            · subst heq
              have hrr : record = r := Option.some.inj (hr.symm.trans hget)
              rw [← hrr] at hbad
              exact absurd hbad hinv
            · by_cases hkk : k = kind
              · subst hkk
                have hrr : record = r := Option.some.inj (hr.symm.trans hget)
                rw [← hrr] at hbad
                exact absurd hbad hinv
              · exact ⟨k, hmem, r,
                  (getRecord_setRecord_ne kind k processed records hkk).trans hget, hbad⟩
        simp only [allThen]
        exact ⟨fun h => hrej (hiff.mpr h), fun h => hok (fun hc => h (hiff.mp hc))⟩

end KindsProofs

end TransientContextProcessor

/-! ## Transient keys: the claims about whole contexts -/

namespace TransientContextProcessor

section ContextClaims

variable (uuidv1 : Nat → String)

/-- `processContext` on a multi-kind context. -/
theorem processContext_multi (records : List (String × Record)) (st : Store) :
    processContext uuidv1 (some (.multi records)) st =
      (allThen
          (Context.multi (processKinds uuidv1 (getContextKinds records) records st).2.1)
          (processKinds uuidv1 (getContextKinds records) records st).1,
        (processKinds uuidv1 (getContextKinds records) records st).2.2) := by
  simp only [processContext, clone]

/-- The kinds of an object without a property named `kind` are the names of its properties. -/
theorem getContextKinds_eq (records : List (String × Record))
    (h : "kind" ∉ records.map Prod.fst) : getContextKinds records = records.map Prod.fst := by
  simp only [getContextKinds]
  apply List.filter_eq_self.mpr
  intro k hk
  simp only [decide_eq_true_eq]
  intro hc
  exact h (hc ▸ hk)

/-- C4 as stated fails: the key-less context of kind `""` with `transient` set, and the
key-less context of kind `"user"` with `anonymous` set, are rejected instead of resolving. -/
theorem processContext_transient_flag_set_yet_rejected :
    processContext Demo.uuidv1
        (some (.single (.name "") (by decide) ⟨.undefined, .undefined, .bool true, []⟩))
        Store.empty =
      (.rejected .invalidUser, Store.empty) ∧
    processContext Demo.uuidv1
        (some (.single (.name "user") (by decide) ⟨.null, .bool true, .bool false, []⟩))
        Store.empty =
      (.rejected .invalidUser, Store.empty) := by
  constructor
  · rw [processContext_single,
      processSingleKindContext_invalid Demo.uuidv1 (.name "")
        ⟨.undefined, .undefined, .bool true, []⟩ Store.empty rfl rfl]
  · rw [processContext_single,
      processSingleKindContext_invalid Demo.uuidv1 (.name "user")
        ⟨.null, .bool true, .bool false, []⟩ Store.empty rfl rfl]

/-- C4, amended: for a key-less single-kind context that has no kind (`undefined` or `null`)
and `anonymous` set, or a non-empty kind name (`"user"` included) and `transient` set, on a
storage that is a key-value map and with a generator of non-empty identifiers, two resolutions
one after the other resolve with the same non-empty key; the second one generates no
identifier, writes nothing and leaves the stored map as it is; the first one generates at most
one identifier, which it stores under the storage key of the kind. -/
theorem processContext_transient_same_key_twice (hgen : ∀ n, uuidv1 n ≠ "") (kind : Kind)
    (notMulti : kind ≠ Kind.name "multi") (record : Record) (st : Store)
    (hkey : record.key.isPresent = false)
    (hflag : (kind.isAbsent = true ∧ record.anonymous.truthy = true) ∨
      ∃ k, kind = Kind.name k ∧ k ≠ "" ∧ record.transient.truthy = true) :
    ∃ key st1 st2, key ≠ "" ∧
      processContext uuidv1 (some (.single kind notMulti record)) st =
        (.resolved (.single kind notMulti { record with key := .str key }), st1) ∧
      processContext uuidv1 (some (.single kind notMulti record)) st1 =
        (.resolved (.single kind notMulti { record with key := .str key }), st2) ∧
      st2.generated = st1.generated ∧ st2.writes = st1.writes ∧ st2.storage = st1.storage ∧
      st1.storage (getContextKeyIdString kind) = some key ∧
      ((st1.generated = st.generated ∧ st1.writes = st.writes ∧ st1.storage = st.storage) ∨
        (st1.generated = st.generated + 1 ∧ key = uuidv1 st.generated ∧
          st1.writes = st.writes ++ [(getContextKeyIdString kind, key)])) := by
  obtain ⟨key, st1, hne, h1, h2, hstored, hst1⟩ :=
    processContext_transient_twice uuidv1 hgen kind notMulti record st hkey
      (isTransient_of_flag kind record hflag)
  refine ⟨key, st1, st1.afterHit kind, hne, h1, h2, rfl, rfl, rfl, hstored, ?_⟩
  rcases hst1 with hhit | hmiss
  · exact Or.inl (by rw [hhit]; exact ⟨rfl, rfl, rfl⟩)
  · have hfirst := h1
    rw [processContext_single] at hfirst
    rcases processSingleKindContext_transient uuidv1 kind record st hkey
        (isTransient_of_flag kind record hflag) with ⟨cachedId, _, _, hres⟩ | ⟨_, hres⟩
    · rw [hres] at hfirst
      simp only [Prod.mk.injEq, Completion.resolved.injEq, Context.single.injEq,
        heq_eq_eq, true_and] at hfirst
      exact Or.inl (by rw [← hfirst.2]; exact ⟨rfl, rfl, rfl⟩)
    · rw [hres] at hfirst
      simp only [Prod.mk.injEq, Completion.resolved.injEq, Context.single.injEq,
        heq_eq_eq, true_and] at hfirst
      have hk : uuidv1 st.generated = key := by
        have := congrArg Record.key hfirst.1
        simpa using this
      refine Or.inr ?_
      rw [← hfirst.2, ← hk]
      exact ⟨rfl, rfl, rfl⟩

/-- C4, amended, on `{kind: "org", transient: true}` and an empty storage. -/
theorem processContext_transient_same_key_twice_witness :
    (∀ n, Demo.uuidv1 n ≠ "") ∧ Kind.name "org" ≠ Kind.name "multi" ∧
      ∃ key st1 st2, key ≠ "" ∧
        processContext Demo.uuidv1
            (some (.single (.name "org") (by decide) ⟨.undefined, .undefined, .bool true, []⟩))
            Store.empty =
          (.resolved (.single (.name "org") (by decide)
              ⟨.str key, .undefined, .bool true, []⟩), st1) ∧
        processContext Demo.uuidv1
            (some (.single (.name "org") (by decide) ⟨.undefined, .undefined, .bool true, []⟩))
            st1 =
          (.resolved (.single (.name "org") (by decide)
              ⟨.str key, .undefined, .bool true, []⟩), st2) ∧
        st2.generated = st1.generated ∧ st2.writes = st1.writes :=
  ⟨Demo.uuidv1_ne_empty, by decide,
    match processContext_transient_same_key_twice Demo.uuidv1 Demo.uuidv1_ne_empty
        (.name "org") (by decide) ⟨.undefined, .undefined, .bool true, []⟩ Store.empty rfl
        (Or.inr ⟨"org", rfl, by decide, rfl⟩) with
    | ⟨key, st1, st2, hne, h1, h2, hg, hw, _⟩ => ⟨key, st1, st2, hne, h1, h2, hg, hw⟩⟩

end ContextClaims

end TransientContextProcessor

namespace TransientContextProcessor

section ResolutionClaims

variable (uuidv1 : Nat → String)

/-- C3 as stated fails: the context `{key: ""}` resolves, and the key of the resolved context is
the empty string. -/
theorem processContext_empty_key_resolves :
    processContext Demo.uuidv1
        (some (.single .undefined (by decide) ⟨.str "", .undefined, .undefined, []⟩))
        Store.empty =
      (.resolved (.single .undefined (by decide) ⟨.str "", .undefined, .undefined, []⟩),
        Store.empty) := by
  rw [processContext_single,
    processSingleKindContext_present Demo.uuidv1 .undefined
      ⟨.str "", .undefined, .undefined, []⟩ Store.empty rfl]
  rfl

/-- C3, amended: with a generator of non-empty identifiers, whenever `processContext` resolves
for a context (a multi-kind context having properties of distinct names other than `kind`),
the resolved context has the same kinds, and the `key` of each of its constituent records is a
string; that string is empty only when the record of that kind in the input carried a key whose
string coercion is empty. -/
theorem processContext_resolved_keys_are_strings (hgen : ∀ n, uuidv1 n ≠ "")
    (context : Context) (hwf : context.WellFormed) (st : Store) (resolved : Context)
    (st1 : Store) (h : processContext uuidv1 (some context) st = (.resolved resolved, st1)) :
    resolved.records.map Prod.fst = context.records.map Prod.fst ∧
      ∀ entry ∈ resolved.records, ∃ key, entry.2.key = .str key ∧
        (key = "" → ∃ original ∈ context.records, original.1 = entry.1 ∧
          original.2.key.isPresent = true ∧ original.2.key.toJsString = "") := by
  cases context with
  | single kind notMulti record =>
    rw [processContext_single] at h
    rcases hres : processSingleKindContext uuidv1 kind record st with ⟨settled, st2⟩
    rw [hres] at h
    cases settled with
    | threw => simp at h
    | rejected error => simp at h
    | resolved processed =>
      simp only [Prod.mk.injEq, Completion.resolved.injEq] at h
      have hproc := processed_of_resolved uuidv1 hgen kind record st processed st2 hres
      obtain ⟨key, hk, _, _, _, hempty⟩ := hproc.key_eq
      rw [← h.1]
      refine ⟨rfl, ?_⟩
      intro entry hmem
      simp only [Context.records, List.mem_singleton] at hmem
      subst hmem
      exact ⟨key, hk, fun he => ⟨(kind, record), by simp [Context.records], rfl, hempty he⟩⟩
  | multi records =>
    obtain ⟨hnodup, hkind⟩ := hwf
    rw [processContext_multi, getContextKinds_eq records hkind] at h
    simp only [Prod.mk.injEq] at h
    obtain ⟨hall, hresolved⟩ := (allThen_resolved_iff _ _ _).mp h.1
    have hproc := processKinds_processed uuidv1 hgen _ records st hall
    have hnames := (processKinds_evolved uuidv1 hgen (records.map Prod.fst) records st).1
    rw [hresolved]
    constructor
    · simp only [Context.records, List.map_map]
      have := congrArg (List.map Kind.name) hnames
      simpa [List.map_map, Function.comp] using this
    · intro entry hmem
      simp only [Context.records, List.mem_map] at hmem
      obtain ⟨⟨k, p⟩, hkp, rfl⟩ := hmem
      have hnodup' : ((processKinds uuidv1 (records.map Prod.fst) records st).2.1.map
          Prod.fst).Nodup := by
        rw [hnames]
        exact hnodup
      have hget := getRecord_of_mem k p _ hnodup' hkp
      have hk : k ∈ records.map Prod.fst := by
        rw [← hnames]
        exact List.mem_map.mpr ⟨(k, p), hkp, rfl⟩
      obtain ⟨r, p', hr, hp', hpr⟩ := hproc k hk
      have hpp : p' = p := Option.some.inj (hp'.symm.trans hget)
      rw [hpp] at hpr
      obtain ⟨key, hkey, _, _, _, hempty⟩ := hpr.key_eq
      refine ⟨key, hkey, fun he => ⟨(Kind.name k, r), ?_, rfl, hempty he⟩⟩
      simp only [Context.records, List.mem_map]
      exact ⟨(k, r), mem_of_getRecord k r records hr, rfl⟩

/-- C3, amended, on `{kind: "multi", org: {key: 7}, device: {transient: true}}`. -/
theorem processContext_resolved_keys_are_strings_witness :
    (∀ n, Demo.uuidv1 n ≠ "") ∧
      (Context.multi
        [("org", ⟨.num 7, .undefined, .undefined, []⟩),
          ("device", ⟨.undefined, .undefined, .bool true, []⟩)]).WellFormed ∧
      ∀ entry ∈ (Context.multi
          [("org", ⟨.str (JsValue.num 7).toJsString, .undefined, .undefined, []⟩),
            ("device", ⟨.str (Demo.uuidv1 0), .undefined, .bool true, []⟩)]).records,
        ∃ key, entry.2.key = .str key ∧
          (key = "" → ∃ original ∈ (Context.multi
              [("org", ⟨.num 7, .undefined, .undefined, []⟩),
                ("device", ⟨.undefined, .undefined, .bool true, []⟩)]).records,
            original.1 = entry.1 ∧ original.2.key.isPresent = true ∧
              original.2.key.toJsString = "") :=
  ⟨Demo.uuidv1_ne_empty, by simp [Context.WellFormed],
    (processContext_resolved_keys_are_strings Demo.uuidv1 Demo.uuidv1_ne_empty
      (.multi [("org", ⟨.num 7, .undefined, .undefined, []⟩),
        ("device", ⟨.undefined, .undefined, .bool true, []⟩)])
      (by simp [Context.WellFormed]) Store.empty
      (.multi [("org", ⟨.str (JsValue.num 7).toJsString, .undefined, .undefined, []⟩),
        ("device", ⟨.str (Demo.uuidv1 0), .undefined, .bool true, []⟩)])
      ((Store.empty.afterMiss (.name "device") (Demo.uuidv1 0)))
      (by
        simp [processContext, clone, getContextKinds, processKinds, getRecord, setRecord,
          processSingleKindContext, JsValue.isPresent, isTransient, Kind.isAbsent, Kind.truthy,
          JsValue.truthy, getCachedContextKey, Store.get, Store.empty, setCachedContextKey,
          Store.set, allThen, Store.afterMiss])).2⟩

end ResolutionClaims

end TransientContextProcessor

namespace TransientContextProcessor

section RejectionClaims

variable (uuidv1 : Nat → String)

/-- For a kind other than the empty name, transience is the transience flag of the kind. -/
theorem isTransient_eq_flag (kind : Kind) (hne : kind ≠ Kind.name "") (record : Record) :
    isTransient kind record = (transienceFlag kind record).truthy := by
  rw [isTransient_eq]
  cases kind with
  | undefined => simp [Kind.isAbsent]
  | null => simp [Kind.isAbsent]
  | name s =>
    have hs : s ≠ "" := fun hc => hne (by rw [hc])
    simp [Kind.isAbsent, Kind.truthy, hs]

/-- C6 as stated fails in both directions: the key-less context `{kind: "user", transient:
true}`, whose flag for the legacy kind (`anonymous`) is not set, resolves; and the key-less
context `{kind: "", transient: 1}`, whose `transient` flag is set, is rejected. -/
theorem processContext_rejection_differs_from_flag :
    (specTransienceFlag (.name "user") ⟨.undefined, .undefined, .bool true, []⟩).truthy
        = false ∧
      (processContext Demo.uuidv1
          (some (.single (.name "user") (by decide) ⟨.undefined, .undefined, .bool true, []⟩))
          Store.empty).1 =
        .resolved (.single (.name "user") (by decide)
          ⟨.str (Demo.uuidv1 0), .undefined, .bool true, []⟩) ∧
      (specTransienceFlag (.name "") ⟨.undefined, .undefined, .num 1, []⟩).truthy = true ∧
      (transienceFlag (.name "") ⟨.undefined, .undefined, .num 1, []⟩).truthy = true ∧
      (processContext Demo.uuidv1
          (some (.single (.name "") (by decide) ⟨.undefined, .undefined, .num 1, []⟩))
          Store.empty).1 =
        .rejected .invalidUser := by
  refine ⟨by decide, ?_, by decide, by decide, ?_⟩
  · rw [processContext_single,
      processSingleKindContext_miss Demo.uuidv1 (.name "user")
        ⟨.undefined, .undefined, .bool true, []⟩ Store.empty rfl rfl (Or.inl rfl)]
    rfl
  · rw [processContext_single,
      processSingleKindContext_invalid Demo.uuidv1 (.name "")
        ⟨.undefined, .undefined, .num 1, []⟩ Store.empty rfl rfl]

/-- C6, amended: with a storage whose operations succeed, `processContext` rejects an absent
context with the context-not-specified error without touching the storage; and for a context
none of whose kinds is the empty name (a multi-kind context having properties of distinct names
other than `kind`), it rejects, with the invalid-context error, exactly when some constituent
record has no key and its transience flag is not set, the flag being `anonymous` when the kind
is `undefined` or `null` and `transient` when the kind is a name, `"user"` included; in every
other case it resolves. -/
theorem processContext_rejects_iff_keyless_not_transient (context : Context)
    (hwf : context.WellFormed)
    (hkinds : ∀ entry ∈ context.records, entry.1 ≠ Kind.name "") (st : Store) :
    processContext uuidv1 none st = (.rejected .userNotSpecified, st) ∧
      ((∃ entry ∈ context.records, entry.2.key.isPresent = false ∧
            (transienceFlag entry.1 entry.2).truthy = false) →
        (processContext uuidv1 (some context) st).1 = .rejected .invalidUser) ∧
      ((¬ ∃ entry ∈ context.records, entry.2.key.isPresent = false ∧
            (transienceFlag entry.1 entry.2).truthy = false) →
        (processContext uuidv1 (some context) st).1.isResolved = true) := by
  refine ⟨rfl, ?_⟩
  cases context with
  | single kind notMulti record =>
    have hne : kind ≠ Kind.name "" := hkinds (kind, record) (by simp [Context.records])
    have htr := isTransient_eq_flag kind hne record
    simp only [Context.records, List.mem_singleton, exists_eq_left]
    rw [processContext_single]
    constructor
    · rintro ⟨hkey, hflag⟩
      rw [processSingleKindContext_invalid uuidv1 kind record st hkey (htr.trans hflag)]
    · intro hnot
      cases hkey : record.key.isPresent with
      | true =>
        rw [processSingleKindContext_present uuidv1 kind record st hkey]
        rfl
      | false =>
        have hflag : isTransient kind record = true := by
          rw [htr]
          cases hf : (transienceFlag kind record).truthy with
          | true => rfl
          | false => exact absurd ⟨hkey, hf⟩ hnot
        rcases processSingleKindContext_transient uuidv1 kind record st hkey hflag with
          ⟨cachedId, _, _, hres⟩ | ⟨_, hres⟩ <;>
        · rw [hres]
          rfl
  | multi records =>
    obtain ⟨hnodup, hkind⟩ := hwf
    rw [processContext_multi, getContextKinds_eq records hkind]
    have hsome : ∀ k ∈ records.map Prod.fst, (getRecord k records).isSome = true :=
      fun k hk => getRecord_isSome_of_mem k records hk
    obtain ⟨hrej, hok⟩ := processKinds_rejects uuidv1
      (Context.multi (processKinds uuidv1 (records.map Prod.fst) records st).2.1)
      (records.map Prod.fst) records st hsome
    have hiff : (∃ entry ∈ (Context.multi records).records, entry.2.key.isPresent = false ∧
          (transienceFlag entry.1 entry.2).truthy = false) ↔
        ∃ k ∈ records.map Prod.fst, ∃ r, getRecord k records = some r ∧ r.Invalid k := by
      constructor
      · rintro ⟨entry, hmem, hkey, hflag⟩
        simp only [Context.records, List.mem_map] at hmem
        obtain ⟨⟨k, r⟩, hkr, rfl⟩ := hmem
        have hne : Kind.name k ≠ Kind.name "" :=
          hkinds (Kind.name k, r) (by
            simp only [Context.records, List.mem_map]
            exact ⟨(k, r), hkr, rfl⟩)
        refine ⟨k, List.mem_map.mpr ⟨(k, r), hkr, rfl⟩, r,
          getRecord_of_mem k r records hnodup hkr, hkey, ?_⟩
        rw [isTransient_eq_flag (Kind.name k) hne r]
        exact hflag
      · rintro ⟨k, _, r, hget, hkey, htr⟩
        have hkr := mem_of_getRecord k r records hget
        have hmem : (Kind.name k, r) ∈ (Context.multi records).records := by
          simp only [Context.records, List.mem_map]
          exact ⟨(k, r), hkr, rfl⟩
        refine ⟨(Kind.name k, r), hmem, hkey, ?_⟩
        rw [← isTransient_eq_flag (Kind.name k) (hkinds _ hmem) r]
        exact htr
    constructor
    · intro h
      exact hrej (hiff.mp h)
    · intro h
      simp only
      rw [hok (fun hc => h (hiff.mpr hc))]
      rfl

/-- C6, amended, on `{kind: "multi", org: {key: "o1"}, device: {anonymous: true}}`: the
sub-record `device` has no key and its `transient` flag is not set, and the context is
rejected. -/
theorem processContext_rejects_iff_keyless_not_transient_witness :
    (Context.multi
        [("org", ⟨.str "o1", .undefined, .undefined, []⟩),
          ("device", ⟨.undefined, .bool true, .undefined, []⟩)]).WellFormed ∧
      (processContext Demo.uuidv1
          (some (Context.multi
            [("org", ⟨.str "o1", .undefined, .undefined, []⟩),
              ("device", ⟨.undefined, .bool true, .undefined, []⟩)]))
          Store.empty).1 = .rejected .invalidUser :=
  ⟨by simp [Context.WellFormed],
    (processContext_rejects_iff_keyless_not_transient Demo.uuidv1
      (.multi [("org", ⟨.str "o1", .undefined, .undefined, []⟩),
        ("device", ⟨.undefined, .bool true, .undefined, []⟩)])
      (by simp [Context.WellFormed]) (by simp [Context.records]) Store.empty).2.1
      ⟨(Kind.name "device", ⟨.undefined, .bool true, .undefined, []⟩),
        by simp [Context.records], rfl, rfl⟩⟩

end RejectionClaims

end TransientContextProcessor

/-! ## Delivery: the remaining claims -/

namespace EventSender

section FallbackProofs

variable {Event : Type} (platform : Platform Event) (environmentId : String)

/-- The greedy loop keeps every event, in order. -/
theorem chunkLoop_flatten (maxLength : Int) (rest current : List Event) :
    (chunkLoop platform maxLength current rest).flatten = current ++ rest := by
  induction rest generalizing current with
  | nil => simp [chunkLoop]
  | cons event rest ih =>
    simp only [chunkLoop]
    split
    · rw [ih]
      simp
    · rw [List.flatten_cons, ih]
      simp

/-- The greedy loop closes no empty chunk. -/
theorem chunkLoop_ne_nil (maxLength : Int) (rest current : List Event) (h : current ≠ []) :
    ∀ chunk ∈ chunkLoop platform maxLength current rest, chunk ≠ [] := by
  induction rest generalizing current with
  | nil =>
    intro chunk hmem
    simp only [chunkLoop, List.mem_singleton] at hmem
    rw [hmem]
    exact h
  | cons event rest ih =>
    intro chunk hmem
    simp only [chunkLoop] at hmem
    split at hmem
    · exact ih (current ++ [event]) (by simp) chunk hmem
    · rcases List.mem_cons.mp hmem with heq | hmem
      · rw [heq]
        exact h
      · exact ih [event] (by simp) chunk hmem

/-- The partition keeps every event, in order, and has no empty chunk. -/
theorem chunkUserEventsForUrl_flatten (maxLength : Int) (events : List Event) :
    (chunkUserEventsForUrl platform maxLength events).flatten = events ∧
      ∀ chunk ∈ chunkUserEventsForUrl platform maxLength events, chunk ≠ [] := by
  cases events with
  | nil => simp [chunkUserEventsForUrl]
  | cons event rest =>
    exact ⟨by simp [chunkUserEventsForUrl, chunkLoop_flatten],
      chunkLoop_ne_nil platform maxLength rest [event] (by simp)⟩

/-- The result of `getResponseInfo` carries `serverTime` exactly for a `date` header that is
not empty and parses to a time other than `0`. -/
theorem getResponseInfo_serverTime (result : Response) (time : Int) :
    (getResponseInfo platform result).status = result.status ∧
      ((getResponseInfo platform result).serverTime = some time ↔
        ∃ dateStr, result.date = some dateStr ∧ dateStr ≠ "" ∧
          platform.dateParse dateStr = some time ∧ time ≠ 0) := by
  unfold getResponseInfo
  cases hd : result.date with
  | none => simp
  | some dateStr =>
    by_cases hempty : dateStr = ""
    · simp [hempty]
    · cases hp : platform.dateParse dateStr with
      | none => simp [hempty, hp]
      | some parsed =>
        by_cases hzero : parsed = 0
        · subst hzero
          simp only [hempty, hp, ne_eq, not_false_eq_true, if_true, not_true_eq_false,
            if_false, Option.some.injEq, exists_eq_left', true_and, false_iff, not_and,
            not_not]
          exact ⟨fun h => absurd h (by simp), fun h => absurd h.1.symm h.2⟩
        · simp only [hempty, hp, hzero, ne_eq, not_false_eq_true, if_true, Option.some.injEq,
            exists_eq_left', true_and]
          constructor
          · intro h
            exact ⟨h, h ▸ hzero⟩
          · intro h
            exact h.1

end FallbackProofs

end EventSender

namespace EventSender

section RemainingDeliveryClaims

variable {Event : Type} (platform : Platform Event) (environmentId : String)

/-- C11: when the platform has a transport and POST is unavailable, the chunks that `sendEvents`
dispatches, concatenated in order, are the original event list, and none of them is empty: every
event is sent once, in its place, whatever its size; with a fallback ping, the pings issued are
the pixel URLs of these chunks, in that order, and no request is issued. -/
theorem sendEvents_ping_chunks_cover_events (transport : List Request → Request → Outcome)
    (hhttp : platform.httpRequest = some transport) (hpost : platform.httpAllowsPost = false)
    (hping : platform.httpFallbackPing = true) (events : List Event) (url : String)
    (w : World) :
    (chunksFor platform events url false).flatten = events ∧
      (∀ chunk ∈ chunksFor platform events url false, chunk ≠ []) ∧
      (sendEvents platform environmentId events url w).2.pings =
        w.pings ++ (chunksFor platform events url false).map
          (fun chunk => url ++ ("/a/" ++ environmentId ++ ".gif") ++ "?d="
            ++ platform.base64URLEncode (platform.stringify chunk)) ∧
      (sendEvents platform environmentId events url w).2.requests = w.requests := by
  have hchunks := chunkUserEventsForUrl_flatten platform
    (MAX_URL_LENGTH - (url.length : Int)) events
  refine ⟨?_, ?_, ?_, ?_⟩
  · simpa [chunksFor] using hchunks.1
  · simpa [chunksFor] using hchunks.2
  · rw [sendEvents_ping platform environmentId transport hhttp hpost]
    simp only [hping, if_true]
    rfl
  · rw [sendEvents_ping platform environmentId transport hhttp hpost]

/-- C11 on the two long events: they are pinged in one chunk. -/
theorem sendEvents_ping_chunks_cover_events_witness :
    Demo.pingPlatform.httpRequest = some (Demo.scripted []) ∧
      Demo.pingPlatform.httpAllowsPost = false ∧ Demo.pingPlatform.httpFallbackPing = true ∧
      (chunksFor Demo.pingPlatform Demo.longEvents "https://events.launchdarkly.com"
        false).flatten = Demo.longEvents :=
  ⟨rfl, rfl, rfl,
    (sendEvents_ping_chunks_cover_events Demo.pingPlatform "env" (Demo.scripted []) rfl rfl rfl
      Demo.longEvents "https://events.launchdarkly.com" World.init).1⟩

/-- C12: when the first POST attempt of `sendChunk(events, url, true)` fails with a
transport-level exception, exactly one retry follows, so that two identical requests are issued
whatever the retry yields; the promise resolves with `undefined` when the retry fails with an
exception too (or yields no response), and with the result built from the response when the
retry yields one, whatever its status. -/
theorem sendChunk_exception_retries_once (transport : List Request → Request → Outcome)
    (hhttp : platform.httpRequest = some transport) (events : List Event) (url : String)
    (w : World)
    (hfirst : transport w.requests ⟨"POST", url, headers platform, platform.stringify events⟩
      = .exception) :
    (sendChunk platform environmentId events url true w).2 =
        { w with requests := w.requests ++
            [⟨"POST", url, headers platform, platform.stringify events⟩,
              ⟨"POST", url, headers platform, platform.stringify events⟩] } ∧
      (transport (w.requests ++ [⟨"POST", url, headers platform, platform.stringify events⟩])
          ⟨"POST", url, headers platform, platform.stringify events⟩ = .exception →
        (sendChunk platform environmentId events url true w).1 = .resolved none) ∧
      (transport (w.requests ++ [⟨"POST", url, headers platform, platform.stringify events⟩])
          ⟨"POST", url, headers platform, platform.stringify events⟩ = .noResponse →
        (sendChunk platform environmentId events url true w).1 = .resolved none) ∧
      ∀ result,
        transport (w.requests ++ [⟨"POST", url, headers platform, platform.stringify events⟩])
            ⟨"POST", url, headers platform, platform.stringify events⟩ = .response result →
          (sendChunk platform environmentId events url true w).1 =
            .resolved (some (getResponseInfo platform result)) := by
  simp only [sendChunk, hhttp, if_true]
  rw [doPostRequest_true]
  simp only [postRequest]
  rw [hfirst]
  simp only
  rw [doPostRequest_false]
  simp only [postRequest, World.issue]
  cases hsecond : transport
      (w.requests ++ [⟨"POST", url, headers platform, platform.stringify events⟩])
      ⟨"POST", url, headers platform, platform.stringify events⟩ with
  | exception => simp
  | noResponse => simp
  | response result => simp

/-- C12 on a transport that fails twice. -/
theorem sendChunk_exception_retries_once_witness :
    (Demo.platform (some (Demo.scripted [.exception, .exception])) true false).httpRequest =
        some (Demo.scripted [.exception, .exception]) ∧
      (sendChunk (Demo.platform (some (Demo.scripted [.exception, .exception])) true false)
          "env" Demo.twoEvents "https://events.example.com" true World.init).1 =
        .resolved none :=
  ⟨rfl,
    (sendChunk_exception_retries_once
      (Demo.platform (some (Demo.scripted [.exception, .exception])) true false) "env"
      (Demo.scripted [.exception, .exception]) rfl Demo.twoEvents
      "https://events.example.com" World.init rfl).2.1 rfl⟩

/-- C13: when the first POST attempt of `sendChunk(events, url, true)` completes without an
exception and is not a recoverable error (no response object, a status below 400 whatever the
classifier says of it, or a status of 400 or more that the classifier rejects), no retry is
made: exactly one request is issued, and the promise resolves with `undefined` when there is no
response and with the result built from the response otherwise. -/
theorem sendChunk_no_retry_without_recoverable_error
    (transport : List Request → Request → Outcome)
    (hhttp : platform.httpRequest = some transport) (events : List Event) (url : String)
    (w : World)
    (hfirst :
      transport w.requests ⟨"POST", url, headers platform, platform.stringify events⟩
          = .noResponse ∨
        ∃ result,
          transport w.requests ⟨"POST", url, headers platform, platform.stringify events⟩
              = .response result ∧
            (result.status < 400 ∨ platform.isHttpErrorRecoverable result.status = false)) :
    (sendChunk platform environmentId events url true w).2 =
        { w with requests := w.requests ++
            [⟨"POST", url, headers platform, platform.stringify events⟩] } ∧
      (transport w.requests ⟨"POST", url, headers platform, platform.stringify events⟩
          = .noResponse →
        (sendChunk platform environmentId events url true w).1 = .resolved none) ∧
      ∀ result,
        transport w.requests ⟨"POST", url, headers platform, platform.stringify events⟩
            = .response result →
          (sendChunk platform environmentId events url true w).1 =
            .resolved (some (getResponseInfo platform result)) := by
  simp only [sendChunk, hhttp, if_true]
  rw [doPostRequest_true]
  simp only [postRequest, World.issue]
  rcases hfirst with hno | ⟨result, hresp, hnot⟩
  · rw [hno]
    simp
  · rw [hresp]
    have hsr : shouldRetry platform result true = false := by
      simp only [shouldRetry, Bool.and_true]
      rcases hnot with hlt | hcls
      · have : decide (result.status ≥ 400) = false := by
          simp only [decide_eq_false_iff_not, ge_iff_le, not_le]
          exact hlt
        simp [this]
      · simp [hcls]
    simp [hsr]

/-- C13 on a transport that answers 400, which the classifier rejects. -/
theorem sendChunk_no_retry_without_recoverable_error_witness :
    (Demo.platform (some (Demo.scripted [.response ⟨400, none⟩])) true false).httpRequest =
        some (Demo.scripted [.response ⟨400, none⟩]) ∧
      (sendChunk (Demo.platform (some (Demo.scripted [.response ⟨400, none⟩])) true false)
          "env" Demo.twoEvents "https://events.example.com" true World.init).2.requests =
        [⟨"POST", "https://events.example.com",
          headers (Demo.platform (some (Demo.scripted [.response ⟨400, none⟩])) true false),
          Demo.stringify Demo.twoEvents⟩] :=
  ⟨rfl,
    congrArg World.requests
      (sendChunk_no_retry_without_recoverable_error
        (Demo.platform (some (Demo.scripted [.response ⟨400, none⟩])) true false) "env"
        (Demo.scripted [.response ⟨400, none⟩]) rfl Demo.twoEvents
        "https://events.example.com" World.init
        (Or.inr ⟨⟨400, none⟩, rfl, Or.inr (by decide)⟩)).1⟩

end RemainingDeliveryClaims

end EventSender

namespace EventSender

section EffectClaims

variable {Event : Type} (platform : Platform Event) (environmentId : String)

/-- C16, evaluated on the code: for a response whose `date` header is `Thu, 01 Jan 1970
00:00:00 GMT`, which parses to the valid time `0`, `getResponseInfo` builds a result without
`serverTime`, because the parsed time is tested for truthiness; for a header that parses to
another time the result carries that time. -/
theorem getResponseInfo_drops_serverTime_zero :
    Demo.clockPlatform.dateParse "Thu, 01 Jan 1970 00:00:00 GMT" = some 0 ∧
      getResponseInfo Demo.clockPlatform ⟨200, some "Thu, 01 Jan 1970 00:00:00 GMT"⟩ =
        ⟨200, none⟩ ∧
      getResponseInfo Demo.clockPlatform ⟨200, some "Wed, 21 Oct 2015 07:28:00 GMT"⟩ =
        ⟨200, some 1445412480000⟩ := by
  refine ⟨by decide, by decide, by decide⟩

/-- C17: `sendChunk(events, url, false)` issues no request and resolves with `undefined`; when
the platform has a fallback ping it is called once, with the url followed by the image path
of the environment, `?d=` and the URL-safe base64 of the JSON of the events, and when it has
none nothing at all is sent. -/
theorem sendChunk_without_post_pings_once (events : List Event) (url : String) (w : World) :
    sendChunk platform environmentId events url false w =
      (.resolved none,
        if platform.httpFallbackPing = true then
          { w with pings := w.pings ++
              [url ++ ("/a/" ++ environmentId ++ ".gif") ++ "?d="
                ++ platform.base64URLEncode (platform.stringify events)] }
        else w) := by
  simp only [sendChunk, Bool.false_eq_true, if_false]
  split <;> rfl

/-- C18: on a platform without `httpRequest`, `sendEvents` resolves and leaves the world as it
was: no request, no fallback ping, no call of `httpAllowsPost` and no partition of the
events. -/
theorem sendEvents_without_http_has_no_effect (hhttp : platform.httpRequest = none)
    (events : List Event) (url : String) (w : World) :
    sendEvents platform environmentId events url w = (.resolved none, w) := by
  simp only [sendEvents, hhttp]

/-- C18 on a platform that could POST and ping, had it a transport. -/
theorem sendEvents_without_http_has_no_effect_witness :
    (Demo.platform none true true).httpRequest = none ∧
      sendEvents (Demo.platform none true true) "env" Demo.twoEvents
          "https://events.example.com" World.init =
        (.resolved none, World.init) :=
  ⟨rfl,
    sendEvents_without_http_has_no_effect (Demo.platform none true true) "env" rfl
      Demo.twoEvents "https://events.example.com" World.init⟩

/-- C19: whatever the transport does, a POST dispatch of `sendChunk` comes to an end: an attempt
that may not retry issues one request and never calls `doPostRequest` again, an attempt that
may retry issues at most three, so `sendChunk(events, url, true)` resolves after one, two or
three requests, all of them the same POST of the JSON body with the same url and headers, and
it touches nothing else in the world. -/
theorem sendChunk_post_terminates_within_three (transport : List Request → Request → Outcome)
    (hhttp : platform.httpRequest = some transport) (events : List Event) (url : String)
    (w : World) :
    (doPostRequest platform transport url (platform.stringify events) false w).2 =
        { w with requests := w.requests ++
            [⟨"POST", url, headers platform, platform.stringify events⟩] } ∧
      (sendChunk platform environmentId events url true w).1.isResolved = true ∧
      ∃ n, 1 ≤ n ∧ n ≤ 3 ∧
        (sendChunk platform environmentId events url true w).2 =
          { w with requests := w.requests ++
              List.replicate n ⟨"POST", url, headers platform, platform.stringify events⟩ } := by
  have hpost := sendChunk_post platform environmentId transport hhttp events url w
  obtain ⟨_, n, hn1, hn3, hw⟩ :=
    doPostRequest_effect platform transport url (platform.stringify events) true w
  refine ⟨?_, hpost.1, n, hn1, by simpa using hn3, ?_⟩
  · rw [doPostRequest_false]
    rfl
  · rw [hpost.2, hw]
    rfl

/-- C19 on a transport that keeps failing. -/
theorem sendChunk_post_terminates_within_three_witness :
    (Demo.platform (some (fun _ _ => .exception)) true false).httpRequest =
        some (fun _ _ => .exception) ∧
      (sendChunk (Demo.platform (some (fun _ _ => .exception)) true false) "env"
          Demo.twoEvents "https://events.example.com" true World.init).1.isResolved = true :=
  ⟨rfl,
    (sendChunk_post_terminates_within_three
      (Demo.platform (some (fun _ _ => .exception)) true false) "env"
      (fun _ _ => .exception) rfl Demo.twoEvents "https://events.example.com"
      World.init).2.1⟩

end EffectClaims

end EventSender

/-! ## Transient keys: the storage across the kinds of a multi-kind context -/

namespace TransientContextProcessor

section StorageProofs

variable (uuidv1 : Nat → String)

/-- The storage keys of two kind names are equal only when the names are. -/
theorem getContextKeyIdString_name_injective (a b : String)
    (h : getContextKeyIdString (.name a) = getContextKeyIdString (.name b)) : a = b := by
  rcases same_of_getContextKeyIdString_eq _ _ h with heq | ⟨ha, hb⟩
  · exact Kind.name.inj heq
  · simp only [Kind.isLegacy, decide_eq_true_eq] at ha hb
    rw [ha, hb]

/-- A resolution never lowers the count of generated identifiers. -/
theorem processSingleKindContext_generated_le (kind : Kind) (record : Record) (st : Store) :
    st.generated ≤ (processSingleKindContext uuidv1 kind record st).2.generated := by
  cases hkey : record.key.isPresent with
  | true => rw [processSingleKindContext_present uuidv1 kind record st hkey]
  | false =>
    cases htr : isTransient kind record with
    | false => rw [processSingleKindContext_invalid uuidv1 kind record st hkey htr]
    | true =>
      rcases processSingleKindContext_transient uuidv1 kind record st hkey htr with
        ⟨cachedId, _, _, hres⟩ | ⟨_, hres⟩
      · rw [hres]
        exact le_refl _
      · rw [hres]
        exact Nat.le_succ _

/-- `processKinds` keeps the names of the properties. -/
theorem processKinds_names (kinds : List String) (records : List (String × Record))
    (st : Store) :
    (processKinds uuidv1 kinds records st).2.1.map Prod.fst = records.map Prod.fst := by
  induction kinds generalizing records st with
  | nil => rfl
  | cons kind rest ih =>
    cases hr : getRecord kind records with
    | none => simp only [processKinds, hr]
    | some record =>
      rcases hres : processSingleKindContext uuidv1 (.name kind) record st with ⟨settled, st1⟩
      cases settled with
      | threw => simp only [processKinds, hr, hres]
      | rejected error =>
        rw [processKinds_cons_rejected uuidv1 kind rest records st record error st1 hr hres]
        exact ih records st1
      | resolved processed =>
        rw [processKinds_cons_resolved uuidv1 kind rest records st record processed st1 hr hres]
        exact (ih _ st1).trans (map_fst_setRecord kind processed records)

/-- `processKinds` leaves alone the properties of the kinds it does not go through. -/
theorem processKinds_getRecord_of_not_mem (kinds : List String)
    (records : List (String × Record)) (st : Store) (other : String) (h : other ∉ kinds) :
    getRecord other (processKinds uuidv1 kinds records st).2.1 = getRecord other records := by
  induction kinds generalizing records st with
  | nil => rfl
  | cons kind rest ih =>
    have hne : other ≠ kind := fun hc => h (hc ▸ List.mem_cons_self _ _)
    have hrest : other ∉ rest := fun hc => h (List.mem_cons_of_mem _ hc)
    cases hr : getRecord kind records with
    | none => simp only [processKinds, hr]
    | some record =>
      rcases hres : processSingleKindContext uuidv1 (.name kind) record st with ⟨settled, st1⟩
      cases settled with
      | threw => simp only [processKinds, hr, hres]
      | rejected error =>
        rw [processKinds_cons_rejected uuidv1 kind rest records st record error st1 hr hres]
        exact ih records st1 hrest
      | resolved processed =>
        rw [processKinds_cons_resolved uuidv1 kind rest records st record processed st1 hr hres]
        exact (ih _ st1 hrest).trans (getRecord_setRecord_ne kind other processed records hne)

/-- `processKinds` changes the stored map only under the storage keys of its kinds, and never
lowers the count of generated identifiers. -/
theorem processKinds_frame (kinds : List String) (records : List (String × Record))
    (st : Store) :
    st.generated ≤ (processKinds uuidv1 kinds records st).2.2.generated ∧
      ∀ key, (∀ kind ∈ kinds, key ≠ getContextKeyIdString (.name kind)) →
        (processKinds uuidv1 kinds records st).2.2.storage key = st.storage key := by
  induction kinds generalizing records st with
  | nil => exact ⟨le_refl _, fun _ _ => rfl⟩
  | cons kind rest ih =>
    cases hr : getRecord kind records with
    | none =>
      simp only [processKinds, hr]
      exact ⟨le_refl _, fun _ _ => trivial⟩
    | some record =>
      have hgen := processSingleKindContext_generated_le uuidv1 (.name kind) record st
      obtain ⟨_, _, _, _, _, _, hframe⟩ :=
        processSingleKindContext_frame uuidv1 (.name kind) record st
      rcases hres : processSingleKindContext uuidv1 (.name kind) record st with ⟨settled, st1⟩
      rw [hres] at hgen hframe
      simp only at hgen hframe
      have hstep : ∀ (records1 : List (String × Record)),
          st.generated ≤ (processKinds uuidv1 rest records1 st1).2.2.generated ∧
            ∀ key, (∀ k ∈ kind :: rest, key ≠ getContextKeyIdString (.name k)) →
              (processKinds uuidv1 rest records1 st1).2.2.storage key = st.storage key := by
        intro records1
        obtain ⟨hg, hf⟩ := ih records1 st1
        refine ⟨le_trans hgen hg, fun key hkey => ?_⟩
        rw [hf key (fun k hk => hkey k (List.mem_cons_of_mem _ hk))]
        exact hframe key (hkey kind (List.mem_cons_self _ _))
      cases settled with
      | threw =>
        simp only [processKinds, hr, hres]
        exact ⟨hgen, fun key hkey => hframe key (hkey kind (List.mem_cons_self _ _))⟩
      | rejected error =>
        rw [processKinds_cons_rejected uuidv1 kind rest records st record error st1 hr hres]
        exact hstep records
      | resolved processed =>
        rw [processKinds_cons_resolved uuidv1 kind rest records st record processed st1 hr hres]
        exact hstep _

end StorageProofs

end TransientContextProcessor

namespace TransientContextProcessor

section ValidProofs

variable (uuidv1 : Nat → String)

/-- A record that is not invalid resolves, in the way `Record.ResolvedWith` describes. -/
theorem resolvedWith_of_not_invalid (kind : String) (record : Record) (st : Store)
    (h : ¬ record.Invalid kind) :
    ∃ processed st1,
      processSingleKindContext uuidv1 (.name kind) record st = (.resolved processed, st1) ∧
        record.ResolvedWith uuidv1 kind processed st st1 := by
  cases hkey : record.key.isPresent with
  | true =>
    refine ⟨_, _, processSingleKindContext_present uuidv1 _ record st hkey, ?_, ?_⟩
    · intro _
      exact ⟨rfl, rfl⟩
    · intro hc
      exact absurd (hkey.symm.trans hc) (by decide)
  | false =>
    cases htr : isTransient (.name kind) record with
    | false => exact absurd ⟨hkey, htr⟩ h
    | true =>
      rcases processSingleKindContext_transient uuidv1 (.name kind) record st hkey htr with
        ⟨cachedId, hne, hcache, hres⟩ | ⟨hmiss, hres⟩
      · refine ⟨_, _, hres, fun hc => absurd (hkey.symm.trans hc) (by decide),
          fun _ => ?_⟩
        exact ⟨cachedId, rfl, hcache, Or.inl ⟨hne, hcache⟩⟩
      · refine ⟨_, _, hres, fun hc => absurd (hkey.symm.trans hc) (by decide),
          fun _ => ?_⟩
        refine ⟨uuidv1 st.generated, rfl, by simp [Store.afterMiss], Or.inr ⟨hmiss, ?_⟩⟩
        exact ⟨st.generated, le_refl _, by simp [Store.afterMiss], rfl⟩

/-- The description of a resolution stays true between an earlier and a later storage state that
agree with the two it was stated for on the entry of the kind. -/
theorem Record.ResolvedWith.widen {kind : String} {record processed : Record}
    {st st1 : Store} (h : record.ResolvedWith uuidv1 kind processed st st1)
    (before after : Store)
    (hbefore : before.storage (getContextKeyIdString (.name kind)) =
      st.storage (getContextKeyIdString (.name kind)))
    (hgen : before.generated ≤ st.generated)
    (hafter : after.storage (getContextKeyIdString (.name kind)) =
      st1.storage (getContextKeyIdString (.name kind)))
    (hgen1 : st1.generated ≤ after.generated) :
    record.ResolvedWith uuidv1 kind processed before after := by
  obtain ⟨hpresent, habsent⟩ := h
  refine ⟨fun hkey => ?_, fun hkey => ?_⟩
  · obtain ⟨hp, hs⟩ := hpresent hkey
    exact ⟨hp, by rw [hafter, hs, hbefore]⟩
  · obtain ⟨id, hp, hs, hcases⟩ := habsent hkey
    refine ⟨id, hp, by rw [hafter, hs], ?_⟩
    rcases hcases with ⟨hne, hcached⟩ | ⟨hmiss, n, hn, hn1, hid⟩
    · exact Or.inl ⟨hne, by rw [hbefore, hcached]⟩
    · refine Or.inr ⟨by rw [hbefore]; exact hmiss, n, le_trans hgen hn, ?_, hid⟩
      exact lt_of_lt_of_le hn1 hgen1

/-- When the kinds are distinct and none of their records is invalid, every promise of
`processKinds` resolves and every record is resolved in the way `Record.ResolvedWith`
describes, between the storage states before and after `processKinds`. -/
theorem processKinds_valid (kinds : List String) (hnodup : kinds.Nodup)
    (records : List (String × Record)) (st : Store)
    (hvalid : ∀ kind ∈ kinds, ∃ r, getRecord kind records = some r ∧ ¬ r.Invalid kind) :
    (∀ result ∈ (processKinds uuidv1 kinds records st).1, result.isResolved = true) ∧
      ∀ kind ∈ kinds, ∀ r, getRecord kind records = some r →
        ∃ p, getRecord kind (processKinds uuidv1 kinds records st).2.1 = some p ∧
          r.ResolvedWith uuidv1 kind p st (processKinds uuidv1 kinds records st).2.2 := by
  induction kinds generalizing records st with
  | nil => simp [processKinds]
  | cons kind rest ih =>
    obtain ⟨hnotin, hnodup'⟩ := List.nodup_cons.mp hnodup
    obtain ⟨r0, hr0, hinv0⟩ := hvalid kind (List.mem_cons_self _ _)
    obtain ⟨p0, st1, hres, hwith⟩ := resolvedWith_of_not_invalid uuidv1 kind r0 st hinv0
    have hne : ∀ k ∈ rest, k ≠ kind := fun k hk hc => hnotin (hc ▸ hk)
    have hkeys : ∀ k ∈ rest,
        getContextKeyIdString (.name kind) ≠ getContextKeyIdString (.name k) :=
      fun k hk hc => hne k hk (getContextKeyIdString_name_injective kind k hc).symm
    have hvalid' : ∀ k ∈ rest,
        ∃ r, getRecord k (setRecord kind p0 records) = some r ∧ ¬ r.Invalid k := by
      intro k hk
      obtain ⟨r, hr, hinv⟩ := hvalid k (List.mem_cons_of_mem _ hk)
      exact ⟨r, (getRecord_setRecord_ne kind k p0 records (hne k hk)).trans hr, hinv⟩
    obtain ⟨hall, hrecs⟩ := ih hnodup' (setRecord kind p0 records) st1 hvalid'
    obtain ⟨hgenRest, hframeRest⟩ :=
      processKinds_frame uuidv1 rest (setRecord kind p0 records) st1
    have hgenStep := processSingleKindContext_generated_le uuidv1 (.name kind) r0 st
    obtain ⟨_, _, _, _, _, _, hframeStep⟩ :=
      processSingleKindContext_frame uuidv1 (.name kind) r0 st
    rw [hres] at hgenStep hframeStep
    simp only at hgenStep hframeStep
    rw [processKinds_cons_resolved uuidv1 kind rest records st r0 p0 st1 hr0 hres]
    refine ⟨?_, ?_⟩
    · intro result hmem
      rcases List.mem_cons.mp hmem with heq | hmem
      · rw [heq]
        rfl
      · exact hall result hmem
    · intro k hk r hr
      rcases List.mem_cons.mp hk with heq | hmem
      · subst heq
        have hrr : r0 = r := Option.some.inj (hr0.symm.trans hr)
        subst hrr
        refine ⟨p0, ?_, ?_⟩
        · rw [processKinds_getRecord_of_not_mem uuidv1 rest _ st1 k hnotin]
          exact getRecord_setRecord_same k p0 records (by simp [hr0])
        · exact hwith.widen uuidv1 st _ rfl (le_refl _)
            (hframeRest _ hkeys) hgenRest
      · have hk' := hne k hmem
        obtain ⟨p, hp, hpw⟩ := hrecs k hmem r
          ((getRecord_setRecord_ne kind k p0 records hk').trans hr)
        refine ⟨p, hp, ?_⟩
        exact hpw.widen uuidv1 st _
          (hframeStep _ (fun hc => hkeys k hmem hc.symm)).symm hgenStep rfl (le_refl _)

end ValidProofs

end TransientContextProcessor

/-! ## Transient keys: the remaining claims -/

namespace TransientContextProcessor

section StorageClaims

variable (uuidv1 : Nat → String)

/-- C14: whenever `processContext` resolves for a single-kind context without a key, the
resolved context is the input with `key` set to an identifier, and the storage entry under the
storage key of its kind is that identifier.  On a cache hit (the storage held a non-empty
identifier) the cached value is the one assigned, and nothing is generated or written; on a
cache miss (no entry, or an empty one) a fresh identifier is generated, assigned, and written
under the storage key of the kind, in the storage state the resolution returns. -/
theorem processContext_stores_resolved_key (kind : Kind) (notMulti : kind ≠ Kind.name "multi")
    (record : Record) (st : Store) (resolved : Context) (st1 : Store)
    (hkey : record.key.isPresent = false)
    (h : processContext uuidv1 (some (.single kind notMulti record)) st =
      (.resolved resolved, st1)) :
    ∃ key, resolved = .single kind notMulti { record with key := .str key } ∧
      st1.storage (getContextKeyIdString kind) = some key ∧
      ((key ≠ "" ∧ st.storage (getContextKeyIdString kind) = some key ∧
          st1.writes = st.writes ∧ st1.generated = st.generated ∧
          st1.storage = st.storage) ∨
        ((st.storage (getContextKeyIdString kind) = none ∨
            st.storage (getContextKeyIdString kind) = some "") ∧
          key = uuidv1 st.generated ∧ st1.generated = st.generated + 1 ∧
          st1.writes = st.writes ++ [(getContextKeyIdString kind, key)])) := by
  rw [processContext_single] at h
  cases htr : isTransient kind record with
  | false =>
    rw [processSingleKindContext_invalid uuidv1 kind record st hkey htr] at h
    simp at h
  | true =>
    rcases processSingleKindContext_transient uuidv1 kind record st hkey htr with
      ⟨cachedId, hne, hcache, hres⟩ | ⟨hmiss, hres⟩
    · rw [hres] at h
      simp only [Prod.mk.injEq, Completion.resolved.injEq] at h
      refine ⟨cachedId, h.1.symm, ?_, Or.inl ⟨hne, hcache, ?_, ?_, ?_⟩⟩ <;>
        rw [← h.2] <;> first | exact hcache | rfl
    · rw [hres] at h
      simp only [Prod.mk.injEq, Completion.resolved.injEq] at h
      refine ⟨uuidv1 st.generated, h.1.symm, ?_, Or.inr ⟨hmiss, rfl, ?_, ?_⟩⟩ <;>
        rw [← h.2] <;> simp [Store.afterMiss]

/-- C14 on `{kind: "org", transient: true}` and an empty storage. -/
theorem processContext_stores_resolved_key_witness :
    Kind.name "org" ≠ Kind.name "multi" ∧
      (⟨.undefined, .undefined, .bool true, []⟩ : Record).key.isPresent = false ∧
      ∃ key,
        Context.single (.name "org") (by decide)
            ⟨.str (Demo.uuidv1 0), .undefined, .bool true, []⟩ =
          .single (.name "org") (by decide) ⟨.str key, .undefined, .bool true, []⟩ ∧
        (Store.empty.afterMiss (.name "org") (Demo.uuidv1 0)).storage
          (getContextKeyIdString (.name "org")) = some key :=
  ⟨by decide, rfl,
    match processContext_stores_resolved_key Demo.uuidv1 (.name "org") (by decide)
        ⟨.undefined, .undefined, .bool true, []⟩ Store.empty
        (.single (.name "org") (by decide) ⟨.str (Demo.uuidv1 0), .undefined, .bool true, []⟩)
        (Store.empty.afterMiss (.name "org") (Demo.uuidv1 0)) rfl
        (by
          rw [processContext_single,
            processSingleKindContext_miss Demo.uuidv1 (.name "org")
              ⟨.undefined, .undefined, .bool true, []⟩ Store.empty rfl rfl (Or.inl rfl)]
          rfl) with
    | ⟨key, h1, h2, _⟩ => ⟨key, h1, h2⟩⟩

/-- C15 as stated fails: in `{kind: "multi", "": {transient: true}, org: {key: "o1"}}` every
sub-record has a key or has `transient` set, and the context is rejected with the
invalid-context error. -/
theorem processContext_multi_empty_kind_rejects :
    (processContext Demo.uuidv1
        (some (.multi [("", ⟨.undefined, .undefined, .bool true, []⟩),
          ("org", ⟨.str "o1", .undefined, .undefined, []⟩)]))
        Store.empty).1 = .rejected .invalidUser := by
  simp [processContext, clone, getContextKinds, processKinds, getRecord, setRecord,
    processSingleKindContext, JsValue.isPresent, isTransient, Kind.isAbsent, Kind.truthy,
    JsValue.truthy, allThen, JsValue.toJsString]

/-- C15, amended: for a multi-kind context whose sub-records have distinct names, none of them
empty or `kind`, and each of which has a key or has no key and `transient` set,
`processContext` resolves with a multi-kind context of the same kinds.  A sub-record that had a
key is the same except that its key is stringified, and the storage entry of its kind is left
as it was.  A sub-record that had none is the same except for its key, which is the storage
entry of its own kind after the resolution: the non-empty identifier cached there before, or,
when there was none, an identifier generated during the resolution. -/
theorem processContext_multi_assigns_keys (records : List (String × Record))
    (hwf : (Context.multi records).WellFormed)
    (hkinds : ∀ entry ∈ records, entry.1 ≠ "")
    (hvalid : ∀ entry ∈ records,
      entry.2.key.isPresent = true ∨ entry.2.transient.truthy = true)
    (st : Store) :
    ∃ processed st1,
      processContext uuidv1 (some (.multi records)) st =
        (.resolved (.multi processed), st1) ∧
      processed.map Prod.fst = records.map Prod.fst ∧
      ∀ entry ∈ records, ∃ p, (entry.1, p) ∈ processed ∧
        (entry.2.key.isPresent = true →
          p = { entry.2 with key := .str entry.2.key.toJsString } ∧
            st1.storage (getContextKeyIdString (.name entry.1)) =
              st.storage (getContextKeyIdString (.name entry.1))) ∧
        (entry.2.key.isPresent = false →
          ∃ id, p = { entry.2 with key := .str id } ∧
            st1.storage (getContextKeyIdString (.name entry.1)) = some id ∧
            ((id ≠ "" ∧ st.storage (getContextKeyIdString (.name entry.1)) = some id) ∨
              ((st.storage (getContextKeyIdString (.name entry.1)) = none ∨
                  st.storage (getContextKeyIdString (.name entry.1)) = some "") ∧
                ∃ n, st.generated ≤ n ∧ n < st1.generated ∧ id = uuidv1 n))) := by
  obtain ⟨hnodup, hkind⟩ := hwf
  have hvalid' : ∀ kind ∈ records.map Prod.fst,
      ∃ r, getRecord kind records = some r ∧ ¬ r.Invalid kind := by
    intro kind hk
    obtain ⟨⟨k, r⟩, hmem, hfst⟩ := List.mem_map.mp hk
    simp only at hfst
    subst hfst
    refine ⟨r, getRecord_of_mem k r records hnodup hmem, ?_⟩
    rintro ⟨hkey, htr⟩
    rcases hvalid (k, r) hmem with hpresent | hflag
    · exact absurd (hkey.symm.trans hpresent) (by decide)
    · have hne : k ≠ "" := hkinds (k, r) hmem
      simp [isTransient, Kind.isAbsent, Kind.truthy, hne, hflag] at htr
  obtain ⟨hall, hrecs⟩ :=
    processKinds_valid uuidv1 (records.map Prod.fst) hnodup records st hvalid'
  refine ⟨(processKinds uuidv1 (records.map Prod.fst) records st).2.1,
    (processKinds uuidv1 (records.map Prod.fst) records st).2.2, ?_,
    processKinds_names uuidv1 _ records st, ?_⟩
  · rw [processContext_multi, getContextKinds_eq records hkind,
      (allThen_resolved_iff _ _ _).mpr ⟨hall, rfl⟩]
  · rintro ⟨k, r⟩ hmem
    obtain ⟨p, hp, hwith⟩ := hrecs k (List.mem_map.mpr ⟨(k, r), hmem, rfl⟩) r
      (getRecord_of_mem k r records hnodup hmem)
    exact ⟨p, mem_of_getRecord k p _ hp, hwith.1, hwith.2⟩

/-- C15, amended, on `{kind: "multi", org: {key: "o1"}, device: {transient: true}}`. -/
theorem processContext_multi_assigns_keys_witness :
    (Context.multi
        [("org", ⟨.str "o1", .undefined, .undefined, []⟩),
          ("device", ⟨.undefined, .undefined, .bool true, []⟩)]).WellFormed ∧
      ∃ processed st1,
        processContext Demo.uuidv1
            (some (.multi [("org", ⟨.str "o1", .undefined, .undefined, []⟩),
              ("device", ⟨.undefined, .undefined, .bool true, []⟩)]))
            Store.empty =
          (.resolved (.multi processed), st1) ∧
        processed.map Prod.fst = ["org", "device"] :=
  ⟨by simp [Context.WellFormed],
    match processContext_multi_assigns_keys Demo.uuidv1
        [("org", ⟨.str "o1", .undefined, .undefined, []⟩),
          ("device", ⟨.undefined, .undefined, .bool true, []⟩)]
        (by simp [Context.WellFormed]) (by simp) (by simp [JsValue.isPresent, JsValue.truthy])
        Store.empty with
    | ⟨processed, st1, h1, h2, _⟩ => ⟨processed, st1, h1, h2⟩⟩

end StorageClaims

end TransientContextProcessor

namespace TransientContextProcessor

section AtomicityClaims

/-- C20: rejection is not atomic with respect to the storage.  On an empty storage, the
multi-kind context with the key-less sub-record `device` that has `transient` set and the
key-less sub-record `org` that has not is rejected with the invalid-context error, in either
order of the two sub-records, and yet a generated identifier has been written under the storage
key of `device`.  A rejected single-kind context, and an absent context, leave the storage state
exactly as it was. -/
theorem processContext_rejection_not_atomic :
    Store.empty.storage "ld:$contextKey:device" = none ∧
      (processContext Demo.uuidv1
          (some (.multi [("device", ⟨.undefined, .undefined, .bool true, []⟩),
            ("org", ⟨.undefined, .undefined, .undefined, []⟩)]))
          Store.empty).1 = .rejected .invalidUser ∧
      (processContext Demo.uuidv1
          (some (.multi [("device", ⟨.undefined, .undefined, .bool true, []⟩),
            ("org", ⟨.undefined, .undefined, .undefined, []⟩)]))
          Store.empty).2.storage "ld:$contextKey:device" = some (Demo.uuidv1 0) ∧
      (processContext Demo.uuidv1
          (some (.multi [("device", ⟨.undefined, .undefined, .bool true, []⟩),
            ("org", ⟨.undefined, .undefined, .undefined, []⟩)]))
          Store.empty).2.writes = [("ld:$contextKey:device", Demo.uuidv1 0)] ∧
      (processContext Demo.uuidv1
          (some (.multi [("org", ⟨.undefined, .undefined, .undefined, []⟩),
            ("device", ⟨.undefined, .undefined, .bool true, []⟩)]))
          Store.empty).1 = .rejected .invalidUser ∧
      (processContext Demo.uuidv1
          (some (.multi [("org", ⟨.undefined, .undefined, .undefined, []⟩),
            ("device", ⟨.undefined, .undefined, .bool true, []⟩)]))
          Store.empty).2.storage "ld:$contextKey:device" = some (Demo.uuidv1 0) ∧
      (processContext Demo.uuidv1
          (some (.multi [("org", ⟨.undefined, .undefined, .undefined, []⟩),
            ("device", ⟨.undefined, .undefined, .bool true, []⟩)]))
          Store.empty).2.writes = [("ld:$contextKey:device", Demo.uuidv1 0)] ∧
      (∀ (uuidv1 : Nat → String) (kind : Kind) (notMulti : kind ≠ Kind.name "multi")
          (record : Record) (st : Store),
        (processContext uuidv1 (some (.single kind notMulti record)) st).1.isRejected = true →
          (processContext uuidv1 (some (.single kind notMulti record)) st).2 = st) ∧
      ∀ (uuidv1 : Nat → String) (st : Store),
        processContext uuidv1 none st = (.rejected .userNotSpecified, st) := by
  refine ⟨rfl, ?_, ?_, ?_, ?_, ?_, ?_, ?_, fun _ _ => rfl⟩
  · simp [processContext, clone, getContextKinds, processKinds, getRecord, setRecord,
      processSingleKindContext, JsValue.isPresent, isTransient, Kind.isAbsent, Kind.truthy,
      JsValue.truthy, getCachedContextKey, Store.get, Store.empty, setCachedContextKey,
      Store.set, allThen]
  · simp [processContext, clone, getContextKinds, processKinds, getRecord, setRecord,
      processSingleKindContext, JsValue.isPresent, isTransient, Kind.isAbsent, Kind.truthy,
      JsValue.truthy, getCachedContextKey, Store.get, Store.empty, setCachedContextKey,
      Store.set, allThen, getContextKeyIdString]
  · simp [processContext, clone, getContextKinds, processKinds, getRecord, setRecord,
      processSingleKindContext, JsValue.isPresent, isTransient, Kind.isAbsent, Kind.truthy,
      JsValue.truthy, getCachedContextKey, Store.get, Store.empty, setCachedContextKey,
      Store.set, allThen, getContextKeyIdString]
  · simp [processContext, clone, getContextKinds, processKinds, getRecord, setRecord,
      processSingleKindContext, JsValue.isPresent, isTransient, Kind.isAbsent, Kind.truthy,
      JsValue.truthy, getCachedContextKey, Store.get, Store.empty, setCachedContextKey,
      Store.set, allThen]
  · simp [processContext, clone, getContextKinds, processKinds, getRecord, setRecord,
      processSingleKindContext, JsValue.isPresent, isTransient, Kind.isAbsent, Kind.truthy,
      JsValue.truthy, getCachedContextKey, Store.get, Store.empty, setCachedContextKey,
      Store.set, allThen, getContextKeyIdString]
  · simp [processContext, clone, getContextKinds, processKinds, getRecord, setRecord,
      processSingleKindContext, JsValue.isPresent, isTransient, Kind.isAbsent, Kind.truthy,
      JsValue.truthy, getCachedContextKey, Store.get, Store.empty, setCachedContextKey,
      Store.set, allThen, getContextKeyIdString]
  · intro uuidv1 kind notMulti record st hrej
    rw [processContext_single] at hrej ⊢
    cases hkey : record.key.isPresent with
    | true =>
      rw [processSingleKindContext_present uuidv1 kind record st hkey] at hrej
      simp [Completion.isRejected] at hrej
    | false =>
      cases htr : isTransient kind record with
      | false => rw [processSingleKindContext_invalid uuidv1 kind record st hkey htr]
      | true =>
        rcases processSingleKindContext_transient uuidv1 kind record st hkey htr with
          ⟨cachedId, _, _, hres⟩ | ⟨_, hres⟩ <;>
        · rw [hres] at hrej
          simp [Completion.isRejected] at hrej

end AtomicityClaims

end TransientContextProcessor
